import Mathlib

/-!
Shallow embedding of the RouterSimulator_cpp core (IPAddress, Packet, Page,
PacketBuffer, PageReassembler, RoutingTable, Router, Terminal, Dijkstra),
translated from the C++ sources, together with theorems settling the
specification claims about them.

Machine integers: all C++ `size_t` / `uint8_t` / `uint16_t` values are modelled
as `Nat`; truncation is written explicitly (`% 256`, `% 65536`) where the C++
narrows.  C++ exceptions are modelled with `Except SimError`.  The C++
`List<T>` container is modelled by Lean `List`.
-/

namespace RouterSim

/-- Error kinds corresponding to the C++ exception types thrown by the core. -/
inductive SimError where
  | invalidArgument
  | runtimeError
deriving DecidableEq, Repr

/-- IPAddress: a 16-bit address, high byte = router ID, low byte = terminal ID
(include/core/IPAddress.h, field `uint16_t address`). -/
structure IPAddress where
  address : Nat
deriving DecidableEq, Repr

/-- The two-argument C++ constructor
`IPAddress(uint8_t routerIP, uint8_t terminalIP = 0)`:
`address = routerIP << 8 | terminalIP`. -/
def IPAddress.ofParts (routerIP terminalIP : Nat) : IPAddress :=
  ⟨(routerIP % 256) * 256 + terminalIP % 256⟩

/-- `getRouterIP`: the upper 8 bits of the address. -/
def IPAddress.getRouterIP (ip : IPAddress) : Nat :=
  ip.address / 256 % 256

/-- `getTerminalIP`: the lower 8 bits of the address. -/
def IPAddress.getTerminalIP (ip : IPAddress) : Nat :=
  ip.address % 256

/-- `isRouter`: terminal ID (low byte) is zero. -/
def IPAddress.isRouter (ip : IPAddress) : Bool :=
  ip.address % 256 == 0

/-- `isValid`: the raw 16-bit address is non-zero. -/
def IPAddress.isValid (ip : IPAddress) : Bool :=
  ip.address != 0

/-- The default-constructed IPAddress `{}` (address 0), used as the
invalid-IP sentinel throughout the code. -/
def IPAddress.invalid : IPAddress := ⟨0⟩

/-- Packet (include/core/Packet.h, current shape): value carrying
(pageID, pagePos, pageLen, srcIP, dstIP, expTick).  `expTick` is the absolute
expiry tick, read in Router.cpp through the alias getter `getTimeout()`. -/
structure Packet where
  pageID : Nat
  pagePos : Nat
  pageLen : Nat
  srcIP : IPAddress
  dstIP : IPAddress
  expTick : Nat
deriving DecidableEq, Repr

/-- The validating Packet constructor (src/src/core/Packet.cpp): throws
`std::invalid_argument` unless `pagePos < pageLen` and both IPs are valid. -/
def mkPacket (pageID pagePos pageLen : Nat) (srcIP dstIP : IPAddress)
    (expTick : Nat) : Except SimError Packet :=
  if pageLen ≤ pagePos then .error .invalidArgument
  else if !dstIP.isValid then .error .invalidArgument
  else if !srcIP.isValid then .error .invalidArgument
  else .ok ⟨pageID, pagePos, pageLen, srcIP, dstIP, expTick⟩

/-- Page (include/core/Page.h): a logical message
(pageID, pageLen, srcIP, dstIP). -/
structure Page where
  pageID : Nat
  pageLen : Nat
  srcIP : IPAddress
  dstIP : IPAddress
deriving DecidableEq, Repr

/-- The four-argument Page constructor (src of part Page.cpp): validates that
`dstIP` and `srcIP` are valid, in that order; it does not inspect `pageLen`. -/
def mkPage (pageID pageLen : Nat) (srcIP dstIP : IPAddress) :
    Except SimError Page :=
  if !dstIP.isValid then .error .invalidArgument
  else if !srcIP.isValid then .error .invalidArgument
  else .ok ⟨pageID, pageLen, srcIP, dstIP⟩

/-- `Page::toPackets(expTick)`: packets with positions `0 .. pageLen-1`, all
other fields copied from the page, each with the given absolute expiry.
(The inner Packet constructor cannot throw here: every position is below
`pageLen` and a constructed Page has validated IPs.) -/
def Page.toPackets (pg : Page) (expTick : Nat) : List Packet :=
  (List.range pg.pageLen).map
    (fun pos => ⟨pg.pageID, pos, pg.pageLen, pg.srcIP, pg.dstIP, expTick⟩)

/-- The per-packet checks of the list constructor `Page::Page(List<Packet>&&)`:
packet `i` must agree with the first packet on pageID, pageLen, srcIP and
dstIP, and sit at position `i`. -/
def pageCheckFrom (pg : Page) : Nat → List Packet → Bool
  | _, [] => true
  | i, p :: rest =>
    p.pageID == pg.pageID && p.pageLen == pg.pageLen &&
      p.srcIP == pg.srcIP && p.dstIP == pg.dstIP && p.pagePos == i &&
      pageCheckFrom pg (i + 1) rest

/-- `Page::Page(List<Packet>&&)`: fails on an empty list; takes the header
fields from the first packet; fails if the count differs from `pageLen` or any
per-packet check fails. -/
def Page.fromPackets (packets : List Packet) : Except SimError Page :=
  match packets with
  | [] => .error .invalidArgument
  | first :: _ =>
    let pg : Page := ⟨first.pageID, first.pageLen, first.srcIP, first.dstIP⟩
    if packets.length ≠ pg.pageLen then .error .invalidArgument
    else if pageCheckFrom pg 0 packets then .ok pg
    else .error .invalidArgument

/-- PageReassembler (include/core/PageReassembler.h and
src/src/core/PageReassembler.cpp, current shape): slot array of length
`total`, `count` filled slots, absolute `expTick`. -/
structure PageReassembler where
  pageID : Nat
  total : Nat
  count : Nat
  expTick : Nat
  packets : List (Option Packet)
deriving DecidableEq, Repr

/-- The constructor `PageReassembler(pageID, length, expTick)`: throws on
`length == 0`, otherwise allocates `length` empty slots. -/
def PageReassembler.make (pageID length expTick : Nat) :
    Except SimError PageReassembler :=
  if length == 0 then .error .invalidArgument
  else .ok ⟨pageID, length, 0, expTick, List.replicate length none⟩

/-- `isComplete()`: `count == total`. -/
def PageReassembler.isComplete (ra : PageReassembler) : Bool :=
  ra.count == ra.total

/-- `addPacket(p)`: reject on pageID mismatch, pageLen ≠ total, position out of
range, or slot already filled; otherwise store a copy at slot `pagePos` and
increment `count`. -/
def PageReassembler.addPacket (ra : PageReassembler) (p : Packet) :
    Bool × PageReassembler :=
  if p.pageID ≠ ra.pageID then (false, ra)
  else if p.pageLen ≠ ra.total then (false, ra)
  else if ra.total ≤ p.pagePos then (false, ra)
  else if (ra.packets.getD p.pagePos none).isSome then (false, ra)
  else (true, { ra with
                packets := ra.packets.set p.pagePos (some p),
                count := ra.count + 1 })

/-- `package()`: throws unless complete and every slot is filled; returns the
slot contents in order and leaves the reassembler with empty slots and
`count = 0`. -/
def PageReassembler.package (ra : PageReassembler) :
    Except SimError (List Packet × PageReassembler) :=
  if ra.count ≠ ra.total then .error .runtimeError
  else if ra.packets.all Option.isSome then
    .ok (ra.packets.filterMap id,
         { ra with count := 0,
                   packets := List.replicate ra.packets.length none })
  else .error .runtimeError

/-- Well-formedness carried by every reassembler the constructor can build:
the slot array has length `total`. -/
def PageReassembler.wf (ra : PageReassembler) : Prop :=
  ra.packets.length = ra.total

/-- The count invariant of the reassembler: `count` equals the number of
filled slots. -/
def PageReassembler.countInv (ra : PageReassembler) : Prop :=
  ra.count = (ra.packets.filter Option.isSome).length

/-- PacketBuffer (include/core/PacketBuffer.h, current shape): a bounded FIFO
of packets; capacity 0 means unbounded.  The associated destination IP is
purely informational and not modelled. -/
structure PacketBuffer where
  capacity : Nat
  packets : List Packet
deriving DecidableEq, Repr

/-- `isFull()`: at capacity (`size >= capacity`), never full when unbounded. -/
def PacketBuffer.isFull (b : PacketBuffer) : Bool :=
  if b.capacity == 0 then false else b.capacity ≤ b.packets.length

/-- `size()`. -/
def PacketBuffer.size (b : PacketBuffer) : Nat :=
  b.packets.length

/-- `enqueue(p)`: returns false (buffer unchanged) iff full; otherwise appends
at the tail. -/
def PacketBuffer.enqueue (b : PacketBuffer) (p : Packet) :
    Bool × PacketBuffer :=
  if b.isFull then (false, b)
  else (true, { b with packets := b.packets ++ [p] })

/-- `availableSpace()`: `capacity - size`, or `INT_MAX` when unbounded. -/
def PacketBuffer.availableSpace (b : PacketBuffer) : Nat :=
  if b.capacity == 0 then 2147483647 else b.capacity - b.packets.length

/-- One entry of a RoutingTable (struct `Routes` in RoutingTable.h). -/
structure RouteEntry where
  destRouterIP : IPAddress
  nextHopIP : IPAddress
deriving DecidableEq, Repr

/-- RoutingTable: a list of `Routes` entries. -/
abbrev RoutingTable := List RouteEntry

/-- `RoutingTable::getNextHopIP(destIP)`: normalizes the destination to its
router component (`IPAddress routerIP(destIP.getRouterIP())`), scans the
entries for it, and returns the default-constructed (invalid) IP on a miss. -/
def RoutingTable.getNextHopIP (rt : RoutingTable) (destIP : IPAddress) :
    IPAddress :=
  let routerIP := IPAddress.ofParts destIP.getRouterIP 0
  match rt.find? (fun e => e.destRouterIP == routerIP) with
  | some e => e.nextHopIP
  | none => IPAddress.invalid

/-- `RoutingTable::setNextHopIP(destIP, nextHop)`: update the first entry with
this exact destination, or append a new entry. -/
def RoutingTable.setNextHopIP (rt : RoutingTable) (destIP nextHop : IPAddress) :
    RoutingTable :=
  match rt with
  | [] => [⟨destIP, nextHop⟩]
  | e :: rest =>
    if e.destRouterIP == destIP then ⟨e.destRouterIP, nextHop⟩ :: rest
    else e :: RoutingTable.setNextHopIP rest destIP nextHop

/-- One neighbor connection of a router (struct `RtrConnection` in Router.h):
the map key (the neighbor router IP), whether the stored `Router*` is non-null
(`alive`), and the owned output buffer. -/
structure RtrConnection where
  nbrIP : IPAddress
  alive : Bool
  outBuffer : PacketBuffer
deriving DecidableEq, Repr

/-- The state of one Router (src/src/core/Router.cpp): buffers, bandwidth and
capacity configuration, neighbor connections, the IPs of the owned terminals
(local delivery only tests membership of the destination IP and ignores the
terminal's own result), the routing table and the five counters. -/
structure RouterState where
  routerIP : IPAddress
  inBuffer : PacketBuffer
  inProcCap : Nat
  locBuffer : PacketBuffer
  locBufferBW : Nat
  outBufferBW : Nat
  connections : List RtrConnection
  terminalIPs : List IPAddress
  routingTable : RoutingTable
  packetsReceived : Nat
  packetsDropped : Nat
  packetsTimedOut : Nat
  packetsForwarded : Nat
  packetsDelivered : Nat
deriving DecidableEq, Repr

/-- A freshly constructed router (counters zero, buffers empty) with a given
set of neighbor connections and terminal IPs attached before simulation
starts; each connection buffer has the router's `outBufferCap`
(`connectRouter` creates `RtrConnection(neighbor, outBufferCap)`). -/
def RouterState.initial (ip : IPAddress)
    (inBufferCap inProcCap locBufferCap locBW outBufferCap outBW : Nat)
    (neighbors : List (IPAddress × Bool)) (terminalIPs : List IPAddress)
    (rt : RoutingTable) : RouterState where
  routerIP := ip
  inBuffer := ⟨inBufferCap, []⟩
  inProcCap := inProcCap
  locBuffer := ⟨locBufferCap, []⟩
  locBufferBW := locBW
  outBufferBW := outBW
  connections := neighbors.map (fun n => ⟨n.1, n.2, ⟨outBufferCap, []⟩⟩)
  terminalIPs := terminalIPs
  routingTable := rt
  packetsReceived := 0
  packetsDropped := 0
  packetsTimedOut := 0
  packetsForwarded := 0
  packetsDelivered := 0

/-- `Router::receivePacket(p)`: `packetsReceived++`, enqueue in the input
buffer, `packetsDropped++` and false on overflow. -/
def RouterState.receivePacket (s : RouterState) (p : Packet) :
    RouterState × Bool :=
  let s := { s with packetsReceived := s.packetsReceived + 1 }
  match s.inBuffer.enqueue p with
  | (true, b) => ({ s with inBuffer := b }, true)
  | (false, _) => ({ s with packetsDropped := s.packetsDropped + 1 }, false)

/-- `Router::getOutputBuffer(nextIP)` combined with the enqueue done in
`routePacket`: locate the connection keyed by `ip` and enqueue there.
Returns `none` when no such neighbor exists, otherwise the updated connection
list and the enqueue result. -/
def enqueueToConn : List RtrConnection → IPAddress → Packet →
    Option (List RtrConnection × Bool)
  | [], _, _ => none
  | c :: cs, ip, p =>
    if c.nbrIP == ip then
      let (ok, b) := c.outBuffer.enqueue p
      some ({ c with outBuffer := b } :: cs, ok)
    else
      match enqueueToConn cs ip p with
      | none => none
      | some (cs2, ok) => some (c :: cs2, ok)

/-- `Router::routePacket(p)`: to the local buffer when the destination router
is this router (overflow → `packetsDropped++`); otherwise look up the next hop
and enqueue in that neighbor's output buffer, `packetsDropped++` when there is
no such neighbor or on overflow. -/
def RouterState.routePacket (s : RouterState) (p : Packet) :
    RouterState × Bool :=
  if p.dstIP.getRouterIP == s.routerIP.getRouterIP then
    match s.locBuffer.enqueue p with
    | (true, b) => ({ s with locBuffer := b }, true)
    | (false, _) => ({ s with packetsDropped := s.packetsDropped + 1 }, false)
  else
    let nextHopIP := s.routingTable.getNextHopIP p.dstIP
    match enqueueToConn s.connections nextHopIP p with
    | none => ({ s with packetsDropped := s.packetsDropped + 1 }, false)
    | some (cs, true) => ({ s with connections := cs }, true)
    | some (cs, false) =>
      ({ s with connections := cs,
                packetsDropped := s.packetsDropped + 1 }, false)

/-- The inner loop of `Router::processInputBuffer`: up to `inProcCap`
dequeues; each dequeued packet is timed out if expired, otherwise routed.
`cnt` is the running `processed` count (incremented per dequeue). -/
def RouterState.processInputLoop (t : Nat) :
    Nat → RouterState → Nat → RouterState × Nat
  | 0, s, cnt => (s, cnt)
  | n + 1, s, cnt =>
    match s.inBuffer.packets with
    | [] => (s, cnt)
    | p :: rest =>
      let s := { s with inBuffer := { s.inBuffer with packets := rest } }
      if p.expTick ≤ t then
        RouterState.processInputLoop t n
          { s with packetsTimedOut := s.packetsTimedOut + 1 } (cnt + 1)
      else
        RouterState.processInputLoop t n (s.routePacket p).1 (cnt + 1)

/-- `Router::processInputBuffer(currentTick)`. -/
def RouterState.processInputBuffer (s : RouterState) (t : Nat) :
    RouterState × Nat :=
  RouterState.processInputLoop t s.inProcCap s 0

/-- The loop of `Router::processLocalBuffer`: runs while `delivered < bw` and
the buffer is non-empty; expired packets are timed out and destination
lookups that miss are drops, neither advancing `delivered`.  Arguments:
delivered-so-far and the buffer contents; result: remaining buffer and the
deltas (delivered, timedOut, dropped). -/
def processLocalLoop (t bw : Nat) (terms : List IPAddress) :
    Nat → List Packet → List Packet × Nat × Nat × Nat
  | _, [] => ([], 0, 0, 0)
  | d, p :: rest =>
    if bw ≤ d then (p :: rest, 0, 0, 0)
    else if p.expTick ≤ t then
      let (r, dd, td, dr) := processLocalLoop t bw terms d rest
      (r, dd, td + 1, dr)
    else if terms.contains p.dstIP then
      let (r, dd, td, dr) := processLocalLoop t bw terms (d + 1) rest
      (r, dd + 1, td, dr)
    else
      let (r, dd, td, dr) := processLocalLoop t bw terms d rest
      (r, dd, td, dr + 1)

/-- `Router::processLocalBuffer(currentTick)`: the terminal found for a
delivered packet receives it (terminal state is outside this router state);
`packetsDelivered` counts the handoff regardless of the terminal's result. -/
def RouterState.processLocalBuffer (s : RouterState) (t : Nat) :
    RouterState × Nat :=
  let (r, dd, td, dr) :=
    processLocalLoop t s.locBufferBW s.terminalIPs 0 s.locBuffer.packets
  ({ s with locBuffer := { s.locBuffer with packets := r },
            packetsDelivered := s.packetsDelivered + dd,
            packetsTimedOut := s.packetsTimedOut + td,
            packetsDropped := s.packetsDropped + dr }, dd)

/-- The per-connection loop of `Router::processOutputBuffers`: runs while
`sent < bw` and the buffer is non-empty.  An expired packet is timed out
without advancing `sent`; a live neighbor receives the packet
(`packetsForwarded++`, `sent++`); a null neighbor pointer is a drop.
Arguments: sent-so-far and the buffer; result: remaining buffer and the
deltas (sent/forwarded, timedOut, dropped). -/
def drainConnLoop (t bw : Nat) (alive : Bool) :
    Nat → List Packet → List Packet × Nat × Nat × Nat
  | _, [] => ([], 0, 0, 0)
  | sent, p :: rest =>
    if bw ≤ sent then (p :: rest, 0, 0, 0)
    else if p.expTick ≤ t then
      let (r, sd, td, dr) := drainConnLoop t bw alive sent rest
      (r, sd, td + 1, dr)
    else if alive then
      let (r, sd, td, dr) := drainConnLoop t bw alive (sent + 1) rest
      (r, sd + 1, td, dr)
    else
      let (r, sd, td, dr) := drainConnLoop t bw alive sent rest
      (r, sd, td, dr + 1)

/-- The connection iteration of `Router::processOutputBuffers`: drains each
connection in turn; result: updated connections and the summed deltas
(totalSent, timedOut, dropped). -/
def processOutputConns (t bw : Nat) :
    List RtrConnection → List RtrConnection × Nat × Nat × Nat
  | [] => ([], 0, 0, 0)
  | c :: cs =>
    let (r, sd, td, dr) := drainConnLoop t bw c.alive 0 c.outBuffer.packets
    let (cs2, sd2, td2, dr2) := processOutputConns t bw cs
    ({ c with outBuffer := { c.outBuffer with packets := r } } :: cs2,
     sd + sd2, td + td2, dr + dr2)

/-- `Router::processOutputBuffers(currentTick)`: returns the total number of
packets handed to live neighbors. -/
def RouterState.processOutputBuffers (s : RouterState) (t : Nat) :
    RouterState × Nat :=
  let (cs, sd, td, dr) := processOutputConns t s.outBufferBW s.connections
  ({ s with connections := cs,
            packetsForwarded := s.packetsForwarded + sd,
            packetsTimedOut := s.packetsTimedOut + td,
            packetsDropped := s.packetsDropped + dr }, sd)

/-- `Router::tick(currentTick)`: output drain, local delivery, terminal ticks
(whose only effect on the router state is the stream of packets the terminals
emit through the parent router's `receivePacket`, here the `emitted` list),
then input routing. -/
def RouterState.tick (s : RouterState) (t : Nat) (emitted : List Packet) :
    RouterState :=
  let s := (s.processOutputBuffers t).1
  let s := (s.processLocalBuffer t).1
  let s := emitted.foldl (fun s p => (s.receivePacket p).1) s
  (s.processInputBuffer t).1

/-- The operations that mutate one router during a run: an externally arriving
packet (from a neighbor router or from one of the attached terminals), or a
full tick at time `t` with a list of terminal-emitted packets. -/
inductive ROp where
  | recv (p : Packet)
  | tick (t : Nat) (emitted : List Packet)
deriving DecidableEq

/-- Apply one router operation. -/
def RouterState.applyOp (s : RouterState) : ROp → RouterState
  | .recv p => (s.receivePacket p).1
  | .tick t emitted => s.tick t emitted

/-- Apply a sequence of router operations. -/
def RouterState.applyOps (s : RouterState) (l : List ROp) : RouterState :=
  l.foldl RouterState.applyOp s

/-- The total occupancy of the neighbor output buffers
(`Router::getPacketsOutPending`). -/
def RouterState.outPending (s : RouterState) : Nat :=
  (s.connections.map (fun c => c.outBuffer.packets.length)).sum

/-- Packet conservation at one router: received = dropped + timedOut +
forwarded + delivered + pending in the input, local and neighbor output
buffers. -/
def RouterState.conserved (s : RouterState) : Prop :=
  s.packetsReceived =
    s.packetsDropped + s.packetsTimedOut + s.packetsForwarded +
      s.packetsDelivered + s.inBuffer.size + s.locBuffer.size + s.outPending

/-- The right-hand side of the conservation equation: packets accounted in
counters or still pending in a buffer. -/
def RouterState.accounted (s : RouterState) : Nat :=
  s.packetsDropped + s.packetsTimedOut + s.packetsForwarded +
    s.packetsDelivered + s.inBuffer.size + s.locBuffer.size + s.outPending

/-- `MAX_ASSEMBLER_TTL` (PageReassembler header): TTL added on reassembler
creation. -/
def MAX_ASSEMBLER_TTL : Nat := 250

/-- Modelled from the spec: the constant `PACKET_TTL` used by
`Terminal::cleanupReassemblers` is declared in the Terminal header, which is
not part of the sources; the spec fixes it at 100 ticks. -/
def PACKET_TTL : Nat := 100

/-- One quarantine entry of a terminal (struct `QuarantinedID`). -/
structure QuarantinedID where
  pageID : Nat
  expTick : Nat
deriving DecidableEq, Repr

/-- The state of one Terminal (Terminal.cpp, current shape): buffers,
bandwidth configuration, the thirteen counters, the next page ID, the active
reassemblers and the quarantine list.  The parent router reference is outside
this state: `processOutputBuffer` hands packets to it and ignores the
result. -/
structure TermState where
  terminalIP : IPAddress
  inBuffer : PacketBuffer
  inProcCap : Nat
  outBuffer : PacketBuffer
  outBW : Nat
  pagesCreated : Nat
  pagesSent : Nat
  pagesOutDropped : Nat
  pagesCompleted : Nat
  pagesTimedOut : Nat
  packetsGenerated : Nat
  packetsSent : Nat
  packetsOutDropped : Nat
  packetsOutTimedOut : Nat
  packetsReceived : Nat
  packetsInTimedOut : Nat
  packetsInDropped : Nat
  packetsSuccProcessed : Nat
  nextPageID : Nat
  reassemblers : List PageReassembler
  quarantine : List QuarantinedID
deriving DecidableEq, Repr

/-- A freshly constructed terminal: all counters and `nextPageID` zero,
buffers empty with the configured capacities, no reassemblers, no
quarantine entries. -/
def TermState.initial (terminalIP : IPAddress)
    (inBufferCap inProcCap outBufferCap outBW : Nat) : TermState where
  terminalIP := terminalIP
  inBuffer := ⟨inBufferCap, []⟩
  inProcCap := inProcCap
  outBuffer := ⟨outBufferCap, []⟩
  outBW := outBW
  pagesCreated := 0
  pagesSent := 0
  pagesOutDropped := 0
  pagesCompleted := 0
  pagesTimedOut := 0
  packetsGenerated := 0
  packetsSent := 0
  packetsOutDropped := 0
  packetsOutTimedOut := 0
  packetsReceived := 0
  packetsInTimedOut := 0
  packetsInDropped := 0
  packetsSuccProcessed := 0
  nextPageID := 0
  reassemblers := []
  quarantine := []

/-- `Terminal::isIDQuarantined(id)`: any quarantine entry with this page
ID. -/
def TermState.isIDQuarantined (s : TermState) (id : Nat) : Bool :=
  s.quarantine.any (fun q => q.pageID == id)

/-- `Terminal::sendPage(length, destIP, expTick)`.  `nextPageID++` is consumed
while building the Page, so it is spent even when the Page constructor throws
(the thrown path aborts the run, so the post-throw state is not modelled
further).  On success or atomic drop the page is fragmented, `pagesCreated`
and `packetsGenerated` grow, and the whole page is enqueued only if
`availableSpace` suffices. -/
def TermState.sendPage (s : TermState) (length : Nat) (destIP : IPAddress)
    (expTick : Nat) : Except SimError (TermState × Bool) :=
  let pid := s.nextPageID
  let s := { s with nextPageID := pid + 1 }
  match mkPage pid length s.terminalIP destIP with
  | .error e => .error e
  | .ok page =>
    let packets := page.toPackets expTick
    let numPackets := packets.length
    let s := { s with pagesCreated := s.pagesCreated + 1,
                      packetsGenerated := s.packetsGenerated + numPackets }
    if s.outBuffer.availableSpace < numPackets then
      .ok ({ s with pagesOutDropped := s.pagesOutDropped + 1,
                    packetsOutDropped := s.packetsOutDropped + numPackets },
           false)
    else
      let s := { s with
        outBuffer := packets.foldl (fun b p => (b.enqueue p).2) s.outBuffer }
      .ok ({ s with pagesSent := s.pagesSent + 1 }, true)

/-- `Terminal::receivePacket(p)`: `packetsReceived++`; a quarantined page ID
is counted in `packetsInTimedOut` and rejected before the input buffer;
otherwise enqueue, counting an overflow in `packetsInDropped`. -/
def TermState.receivePacket (s : TermState) (p : Packet) :
    TermState × Bool :=
  let s := { s with packetsReceived := s.packetsReceived + 1 }
  if s.isIDQuarantined p.pageID then
    ({ s with packetsInTimedOut := s.packetsInTimedOut + 1 }, false)
  else
    match s.inBuffer.enqueue p with
    | (true, b) => ({ s with inBuffer := b }, true)
    | (false, _) =>
      ({ s with packetsInDropped := s.packetsInDropped + 1 }, false)

/-- `Terminal::findOrCreateReassembler(pageID, pageLength, expTick)`: find the
first reassembler with this page ID (`nullptr`, modelled `none`, when its
`total` differs from `pageLength`), else append a fresh one (whose constructor
throws on `pageLength == 0`).  Returns the reassembler list and the index of
the designated reassembler. -/
def findOrCreateReassembler (ras : List PageReassembler)
    (pid len exp : Nat) :
    Except SimError (Option (List PageReassembler × Nat)) :=
  match ras.findIdx? (fun ra => ra.pageID == pid) with
  | some i =>
    match ras[i]? with
    | some ra => if ra.total == len then .ok (some (ras, i)) else .ok none
    | none => .ok none
  | none =>
    match PageReassembler.make pid len exp with
    | .error e => .error e
    | .ok ra => .ok (some (ras ++ [ra], ras.length))

/-- `Terminal::handleCompletedPage(pageID)`: find the reassembler (return
silently when absent), `package()` it in place, construct a validated Page
from the packets (an inconsistent packet set throws and the exception
propagates), then `pagesCompleted++` and erase the reassembler. -/
def TermState.handleCompletedPage (s : TermState) (pid : Nat) :
    Except SimError TermState :=
  match s.reassemblers.findIdx? (fun ra => ra.pageID == pid) with
  | none => .ok s
  | some i =>
    match s.reassemblers[i]? with
    | none => .ok s
    | some ra =>
      match ra.package with
      | .error e => .error e
      | .ok (packets, ra2) =>
        let s := { s with reassemblers := s.reassemblers.set i ra2 }
        match Page.fromPackets packets with
        | .error e => .error e
        | .ok _ =>
          .ok { s with pagesCompleted := s.pagesCompleted + 1,
                       reassemblers := s.reassemblers.eraseIdx i }

/-- The loop of `Terminal::processInputBuffer`: up to `inProcCap` dequeues;
expired packets and pageLen-mismatched pages count as in-timeouts, foreign
destinations and rejected `addPacket` calls as in-drops; a completing packet
adds `total` to `packetsSuccProcessed` and hands the page over. -/
def TermState.processInputLoop (t : Nat) :
    Nat → TermState → Nat → Except SimError (TermState × Nat)
  | 0, s, cnt => .ok (s, cnt)
  | n + 1, s, cnt =>
    match s.inBuffer.packets with
    | [] => .ok (s, cnt)
    | p :: rest =>
      let s := { s with inBuffer := { s.inBuffer with packets := rest } }
      let cnt := cnt + 1
      if p.expTick ≤ t then
        TermState.processInputLoop t n
          { s with packetsInTimedOut := s.packetsInTimedOut + 1 } cnt
      else if p.dstIP ≠ s.terminalIP then
        TermState.processInputLoop t n
          { s with packetsInDropped := s.packetsInDropped + 1 } cnt
      else
        match findOrCreateReassembler s.reassemblers p.pageID p.pageLen
            (t + MAX_ASSEMBLER_TTL) with
        | .error e => .error e
        | .ok none =>
          TermState.processInputLoop t n
            { s with packetsInTimedOut := s.packetsInTimedOut + 1 } cnt
        | .ok (some (ras, i)) =>
          match ras[i]? with
          | none => TermState.processInputLoop t n { s with reassemblers := ras } cnt
          | some ra =>
            let (ok, ra2) := ra.addPacket p
            let s := { s with reassemblers := ras.set i ra2 }
            if !ok then
              TermState.processInputLoop t n
                { s with packetsInDropped := s.packetsInDropped + 1 } cnt
            else if ra2.isComplete then
              let s := { s with packetsSuccProcessed :=
                                  s.packetsSuccProcessed + ra2.total }
              match s.handleCompletedPage p.pageID with
              | .error e => .error e
              | .ok s => TermState.processInputLoop t n s cnt
            else
              TermState.processInputLoop t n s cnt

/-- `Terminal::processInputBuffer(currentTick)`. -/
def TermState.processInputBuffer (s : TermState) (t : Nat) :
    Except SimError (TermState × Nat) :=
  TermState.processInputLoop t s.inProcCap s 0

/-- The loop of `Terminal::processOutputBuffer`: runs while
`processedCount < outBW` and the buffer is non-empty; expired packets are
out-timeouts that do not advance the count; others go to the parent router
(`packetsSent++`, count++), whose result is ignored.  Result: remaining
buffer and the deltas (sent, outTimedOut). -/
def termOutputLoop (t bw : Nat) :
    Nat → List Packet → List Packet × Nat × Nat
  | _, [] => ([], 0, 0)
  | cnt, p :: rest =>
    if bw ≤ cnt then (p :: rest, 0, 0)
    else if p.expTick ≤ t then
      let (r, sd, td) := termOutputLoop t bw cnt rest
      (r, sd, td + 1)
    else
      let (r, sd, td) := termOutputLoop t bw (cnt + 1) rest
      (r, sd + 1, td)

/-- `Terminal::processOutputBuffer(currentTick)`. -/
def TermState.processOutputBuffer (s : TermState) (t : Nat) :
    TermState × Nat :=
  let (r, sd, td) := termOutputLoop t s.outBW 0 s.outBuffer.packets
  ({ s with outBuffer := { s.outBuffer with packets := r },
            packetsSent := s.packetsSent + sd,
            packetsOutTimedOut := s.packetsOutTimedOut + td }, sd)

/-- The sweep of `Terminal::cleanupReassemblers(currentTick)`: every
reassembler with `expTick <= currentTick` is removed, counting one page
timeout, `count` packet in-timeouts, and pushing `{pageID, t + PACKET_TTL}`
onto the quarantine (in list order).  Result: surviving reassemblers and the
deltas (pagesTimedOut, packetsInTimedOut, new quarantine entries). -/
def cleanupLoop (t : Nat) :
    List PageReassembler →
      List PageReassembler × Nat × Nat × List QuarantinedID
  | [] => ([], 0, 0, [])
  | ra :: rest =>
    if ra.expTick ≤ t then
      let (l, pg, pk, q) := cleanupLoop t rest
      (l, pg + 1, pk + ra.count, ⟨ra.pageID, t + PACKET_TTL⟩ :: q)
    else
      let (l, pg, pk, q) := cleanupLoop t rest
      (ra :: l, pg, pk, q)

/-- `Terminal::cleanupReassemblers(currentTick)`. -/
def TermState.cleanupReassemblers (s : TermState) (t : Nat) : TermState :=
  let (l, pg, pk, q) := cleanupLoop t s.reassemblers
  { s with reassemblers := l,
           pagesTimedOut := s.pagesTimedOut + pg,
           packetsInTimedOut := s.packetsInTimedOut + pk,
           quarantine := s.quarantine ++ q }

/-- `Terminal::updateQuarantine(currentTick)`: drop every entry with
`expTick <= currentTick`. -/
def TermState.updateQuarantine (s : TermState) (t : Nat) : TermState :=
  { s with quarantine := s.quarantine.filter (fun q => t < q.expTick) }

/-- `Terminal::tick(currentTick)`: updateQuarantine, cleanupReassemblers,
processOutputBuffer, processInputBuffer. -/
def TermState.tick (s : TermState) (t : Nat) : Except SimError TermState :=
  let s := s.updateQuarantine t
  let s := s.cleanupReassemblers t
  let s := (s.processOutputBuffer t).1
  match s.processInputBuffer t with
  | .error e => .error e
  | .ok (s, _) => .ok s

/-- The operations that mutate one terminal during a run: a `sendPage` call
(from the traffic generator or a test), an arriving packet delivered by the
parent router, or the terminal tick. -/
inductive TOp where
  | send (length : Nat) (destIP : IPAddress) (expTick : Nat)
  | recv (p : Packet)
  | tick (t : Nat)
deriving DecidableEq

/-- Apply one terminal operation (an uncaught exception aborts the run). -/
def TermState.applyOp (s : TermState) : TOp → Except SimError TermState
  | .send length destIP expTick =>
    match s.sendPage length destIP expTick with
    | .error e => .error e
    | .ok (s, _) => .ok s
  | .recv p => .ok (s.receivePacket p).1
  | .tick t => s.tick t

/-- Apply a sequence of terminal operations. -/
def TermState.applyOps (s : TermState) (l : List TOp) :
    Except SimError TermState :=
  match l with
  | [] => .ok s
  | op :: rest =>
    match s.applyOp op with
    | .error e => .error e
    | .ok s => s.applyOps rest

/-- The view of one router that `DijkstraAlgorithm::computeRoutingTable`
reads: its IP, and per neighbor connection the neighbor IP
(`getNeighborIPs()`) together with the current output-buffer occupancy toward
it (`getNeighborBufferUsage(neighborIP)`, the edge weight). The connections
map has unique keys, so each neighbor occurs once. -/
structure RouterNode where
  ip : IPAddress
  neighbors : List (IPAddress × Nat)
deriving DecidableEq, Repr

/-- `DistanceInfo` (include/algorithms/Dijkstra.h): distance (with `none`
standing for `INF = SIZE_MAX`), parent IP (default invalid), visited flag. -/
structure DistInfo where
  distance : Option Nat
  parent : IPAddress
  visited : Bool
deriving DecidableEq, Repr

/-- The default-constructed `DistanceInfo{}`. -/
def DistInfo.init : DistInfo := ⟨none, IPAddress.invalid, false⟩

/-- The size_t comparison `a < b` in the presence of the `INF` sentinel:
`INF` is strictly greater than every finite distance and not below itself. -/
def ltINF : Option Nat → Option Nat → Bool
  | some a, some b => a < b
  | some _, none => true
  | none, _ => false

/-- `DijkstraAlgorithm::getRouterIndex`: index of the router with this IP in
the list, throwing `std::runtime_error` when absent. -/
def getRouterIndex (g : List RouterNode) (ip : IPAddress) :
    Except SimError Nat :=
  match g.findIdx? (fun r => r.ip == ip) with
  | some i => .ok i
  | none => .error .runtimeError

/-- `DijkstraAlgorithm::findMinDistance`: scan all entries, keeping the first
unvisited index whose distance is strictly below the best so far (starting
at `INF`); `none` models the `SIZE_MAX` not-found sentinel. -/
def findMinDistance (ds : List DistInfo) : Option Nat :=
  (ds.enum.foldl
    (fun acc jd =>
      if !jd.2.visited && ltINF jd.2.distance acc.2
      then (some jd.1, jd.2.distance) else acc)
    ((none : Option Nat), (none : Option Nat))).1

/-- The neighbor-relaxation loop of the selected node `u` (IP `uIP`, finite
distance `dU`): skip visited neighbors; otherwise relax with
`newDist = dU + bufferLoad`, setting the parent to `uIP` on improvement.  A
neighbor IP absent from the router list throws. -/
def relaxNeighbors (g : List RouterNode) (uIP : IPAddress) (dU : Nat) :
    List (IPAddress × Nat) → List DistInfo → Except SimError (List DistInfo)
  | [], ds => .ok ds
  | (nIP, load) :: rest, ds =>
    match getRouterIndex g nIP with
    | .error e => .error e
    | .ok j =>
      match ds[j]? with
      | none => relaxNeighbors g uIP dU rest ds
      | some dj =>
        if dj.visited then relaxNeighbors g uIP dU rest ds
        else if ltINF (some (dU + load)) dj.distance then
          relaxNeighbors g uIP dU rest (ds.set j ⟨some (dU + load), uIP, false⟩)
        else relaxNeighbors g uIP dU rest ds

/-- The main Dijkstra loop (`for i in 0..routerCount`): select an unvisited
router of minimal finite distance (stop when none is left), mark it visited,
relax its neighbors.  The inner `none` fallbacks are unreachable: the
selected index is in range and its distance is finite by construction of
`findMinDistance`. -/
def dijkstraLoop (g : List RouterNode) :
    Nat → List DistInfo → Except SimError (List DistInfo)
  | 0, ds => .ok ds
  | k + 1, ds =>
    match findMinDistance ds with
    | none => .ok ds
    | some u =>
      match ds[u]? with
      | none => .ok ds
      | some du =>
        match du.distance with
        | none => .ok ds
        | some dU =>
          let ds2 := ds.set u ⟨some dU, du.parent, true⟩
          match g[u]? with
          | none => .ok ds2
          | some node =>
            match relaxNeighbors g node.ip dU node.neighbors ds2 with
            | .error e => .error e
            | .ok ds3 => dijkstraLoop g k ds3

/-- The trace-back `while (parentIP != sourceIP)` loop of the table-building
phase.  The C++ loop is unbounded; the fuel is a modelling artifact and
`g.length + 1` steps always suffice for states produced by the main loop
(fuel exhaustion models non-termination as an error). -/
def traceBack (g : List RouterNode) (ds : List DistInfo) (srcIP : IPAddress) :
    Nat → IPAddress → IPAddress → Except SimError IPAddress
  | 0, _, _ => .error .runtimeError
  | fuel + 1, currentIP, parentIP =>
    if parentIP == srcIP then .ok currentIP
    else
      match getRouterIndex g parentIP with
      | .error e => .error e
      | .ok pIdx =>
        match ds[pIdx]? with
        | none => .error .runtimeError
        | some dp => traceBack g ds srcIP fuel parentIP dp.parent

/-- The table-building phase: for every router other than the source with a
finite distance, trace the parent chain back to the source and record
`(destIP, next hop)`. -/
def buildTable (g : List RouterNode) (ds : List DistInfo) (srcIdx : Nat)
    (srcIP : IPAddress) :
    List (Nat × RouterNode) → RoutingTable → Except SimError RoutingTable
  | [], rt => .ok rt
  | (i, node) :: rest, rt =>
    if i == srcIdx then buildTable g ds srcIdx srcIP rest rt
    else
      match ds[i]? with
      | none => buildTable g ds srcIdx srcIP rest rt
      | some di =>
        match di.distance with
        | none => buildTable g ds srcIdx srcIP rest rt
        | some _ =>
          match traceBack g ds srcIP (g.length + 1) node.ip di.parent with
          | .error e => .error e
          | .ok nh =>
            buildTable g ds srcIdx srcIP rest (rt.setNextHopIP node.ip nh)

/-- `DijkstraAlgorithm::computeRoutingTable(routers, sourceIP)`. -/
def computeRoutingTable (g : List RouterNode) (sourceIP : IPAddress) :
    Except SimError RoutingTable :=
  match getRouterIndex g sourceIP with
  | .error e => .error e
  | .ok srcIdx =>
    let ds := (g.map (fun _ => DistInfo.init)).set srcIdx
      ⟨some 0, sourceIP, false⟩
    match dijkstraLoop g g.length ds with
    | .error e => .error e
    | .ok ds => buildTable g ds srcIdx sourceIP g.enum []

/-- Directed adjacency of the router graph read by Dijkstra: `b` occurs in
the neighbor list of the node with IP `a`. -/
def adjP (g : List RouterNode) (a b : IPAddress) : Prop :=
  ∃ node ∈ g, node.ip = a ∧ ∃ nb ∈ node.neighbors, nb.1 = b

/-- Reachability along the neighbor relation. -/
def reach (g : List RouterNode) : IPAddress → IPAddress → Prop :=
  Relation.ReflTransGen (adjP g)

/-- `min` with `none` standing for infinity. -/
def minO : Option Nat → Option Nat → Option Nat
  | none, b => b
  | a, none => a
  | some a, some b => some (min a b)

/-- One Bellman-Ford relaxation round for unit edge weights: entry `j`
becomes the minimum of its old value and `1 +` the value of any node that
lists router `j` as a neighbor. -/
def hopStep (g : List RouterNode) (d : List (Option Nat)) :
    List (Option Nat) :=
  g.enum.map (fun je =>
    (g.enum.filterMap (fun ie =>
      if ie.2.neighbors.any (fun nb => nb.1 == je.2.ip) then
        some ((d.getD ie.1 none).map (· + 1))
      else none)).foldl minO (d.getD je.1 none))

/-- Minimum-hop distances from the router at index `srcIdx`: `g.length`
relaxation rounds from the point distribution at the source (enough rounds
for every shortest hop count, each being below `g.length`). -/
def hopDistsFrom (g : List RouterNode) (srcIdx : Nat) : List (Option Nat) :=
  (hopStep g)^[g.length]
    ((g.map (fun _ => (none : Option Nat))).set srcIdx (some 0))

/-- Minimum hop count from router `a` to router `b` (`none` when `a` is not a
router of the graph or `b` is unreachable from it). -/
def hopDist (g : List RouterNode) (a b : IPAddress) : Option Nat :=
  match g.findIdx? (fun r => r.ip == a), g.findIdx? (fun r => r.ip == b) with
  | some ia, some ib => (hopDistsFrom g ia).getD ib none
  | _, _ => none

/-- Formalization of `nh` lying on a minimum-hop path from `src` to `dst`:
some minimum-hop path passes through `nh`, equivalently the hop distances
satisfy `d(src,nh) + d(nh,dst) = d(src,dst)` with all three finite. -/
def liesOnMinHopPath (g : List RouterNode) (src dst nh : IPAddress) : Prop :=
  ∃ a b c, hopDist g src nh = some a ∧ hopDist g nh dst = some b ∧
    hopDist g src dst = some c ∧ a + b = c

/-- All edge weights zero: every neighbor output buffer is empty. -/
def zeroWeights (g : List RouterNode) : Prop :=
  ∀ node ∈ g, ∀ nb ∈ node.neighbors, nb.2 = 0

/-- The invariant of the Dijkstra main loop.  `vis` is the list of visited
indices in selection order.  Every entry with finite distance other than the
source has a parent that is a visited router adjacent to it, selected
strictly earlier than itself; the source keeps distance 0 and itself as
parent. -/
def DijkInv (g : List RouterNode) (srcIdx : Nat) (srcIP : IPAddress)
    (ds : List DistInfo) (vis : List Nat) : Prop :=
  ds.length = g.length ∧
  vis.Nodup ∧
  (∀ i ∈ vis, i < ds.length) ∧
  (∀ i d, ds[i]? = some d → (d.visited = true ↔ i ∈ vis)) ∧
  (∀ d, ds[srcIdx]? = some d → d.parent = srcIP ∧ d.distance = some 0) ∧
  (∀ i d, ds[i]? = some d → d.distance ≠ none → i ≠ srcIdx →
    ∃ k dk nodek nodei,
      ds[k]? = some dk ∧ g[k]? = some nodek ∧ g[i]? = some nodei ∧
      nodek.ip = d.parent ∧ dk.visited = true ∧ dk.distance ≠ none ∧
      (∃ nb ∈ nodek.neighbors, nb.1 = nodei.ip) ∧
      (i ∈ vis → vis.indexOf k < vis.indexOf i))

/-- The routing table Dijkstra computes on `diamondGraph` from router 1. -/
def diamondTable : RoutingTable :=
  [⟨⟨512⟩, ⟨512⟩⟩, ⟨⟨768⟩, ⟨512⟩⟩, ⟨⟨1024⟩, ⟨1024⟩⟩, ⟨⟨1280⟩, ⟨512⟩⟩]

/-!  Concrete instances used by witnesses, counterexamples and failing
inputs. -/

/-- A terminal at IP (1,1) with unbounded input buffer and output-buffer
capacity 2. -/
def sampleTerminal : TermState := TermState.initial ⟨257⟩ 0 10 2 5

/-- The state `sampleTerminal` reaches when `sendPage 3 (2,2) 50` drops the
page for lack of output-buffer space. -/
def sampleTerminalDropped : TermState :=
  { sampleTerminal with nextPageID := 1, pagesCreated := 1,
                        packetsGenerated := 3, pagesOutDropped := 1,
                        packetsOutDropped := 3 }

/-- Failing input for the route-miss claim: the router with IP (1,0) as built
by `Network::generateRandomNetwork`, whose spanning-tree step always connects
router 1 to router 0 — and router 0, the first router the Network constructor
creates, has IP (0,0).  The routing table is empty, so every foreign
destination is a lookup miss. -/
def missRouter : RouterState :=
  RouterState.initial ⟨256⟩ 0 10 0 10 0 5 [(⟨0⟩, true)] [] []

/-- A packet destined to terminal (2,1), a router absent from `missRouter`'s
routing table. -/
def missPacket : Packet := ⟨7, 0, 1, ⟨257⟩, ⟨513⟩, 100⟩

/-- A router with `outBW = 1` whose single neighbor connection buffer holds
an expired packet (expiry 5) in front of a fresh one (expiry 100). -/
def overdrainRouter : RouterState :=
  { RouterState.initial ⟨256⟩ 0 10 0 10 0 1 [(⟨512⟩, true)] [] [] with
    connections := [⟨⟨512⟩, true,
      ⟨0, [⟨1, 0, 1, ⟨257⟩, ⟨513⟩, 5⟩, ⟨2, 0, 1, ⟨257⟩, ⟨513⟩, 100⟩]⟩⟩] }

/-- The per-connection output-buffer sizes of a connection list. -/
def connSizes (cs : List RtrConnection) : List Nat :=
  cs.map (fun c => c.outBuffer.packets.length)

/-- The five-router graph refuting Dijkstra min-hop optimality, all buffers
empty (all weights zero).  Indices: 0 = src (router 1), 1 = a (router 2),
2 = c (router 3), 3 = b (router 4), 4 = dst (router 5).  Edges (symmetric):
src–a, a–c, c–dst, src–b, b–dst.  The minimum-hop route from src to dst is
src–b–dst (2 hops); via a it takes 3 hops. -/
def diamondGraph : List RouterNode :=
  [⟨⟨256⟩, [(⟨512⟩, 0), (⟨1024⟩, 0)]⟩,
   ⟨⟨512⟩, [(⟨256⟩, 0), (⟨768⟩, 0)]⟩,
   ⟨⟨768⟩, [(⟨512⟩, 0), (⟨1280⟩, 0)]⟩,
   ⟨⟨1024⟩, [(⟨256⟩, 0), (⟨1280⟩, 0)]⟩,
   ⟨⟨1280⟩, [(⟨768⟩, 0), (⟨1024⟩, 0)]⟩]

/-- A terminal at IP (1,1) with unbounded buffers, about to mix two pages:
both source terminals (1,2) and (2,2) used pageID 0 with length 2. -/
def mixTerminal : TermState := TermState.initial ⟨257⟩ 0 10 0 5

/-- Position 0 of page 0 (length 2) from source (1,2). -/
def mixPacketA : Packet := ⟨0, 0, 2, ⟨258⟩, ⟨257⟩, 100⟩

/-- Position 1 of page 0 (length 2) from source (2,2). -/
def mixPacketB : Packet := ⟨0, 1, 2, ⟨514⟩, ⟨257⟩, 100⟩

/-- A terminal holding one reassembler for page 42 (10 packets expected, one
received, expiry tick 251), as reached after processing packet 0 of page 42
at tick 1. -/
def quarTerminal : TermState :=
  { TermState.initial ⟨257⟩ 0 10 0 5 with
    reassemblers := [⟨42, 10, 1, 251,
      (List.replicate 10 none).set 0 (some ⟨42, 0, 10, ⟨514⟩, ⟨257⟩, 1000⟩)⟩] }

/-- A straggler packet of page 42 arriving during the quarantine window. -/
def quarPacket : Packet := ⟨42, 3, 10, ⟨514⟩, ⟨257⟩, 1000⟩

/-- The state `quarTerminal` reaches after its tick at 252: the reassembler
timed out into the quarantine entry (42, 352). -/
def quarTerminalAfterTick : TermState :=
  { TermState.initial ⟨257⟩ 0 10 0 5 with
    pagesTimedOut := 1, packetsInTimedOut := 1, quarantine := [⟨42, 352⟩] }

/-!  Helper lemmas. -/

theorem pageCheckFrom_range (pg : Page) (E : Nat) :
    ∀ (k i : Nat), pageCheckFrom pg i ((List.range' i k).map
      (fun pos =>
        (⟨pg.pageID, pos, pg.pageLen, pg.srcIP, pg.dstIP, E⟩ : Packet))) =
      true := by
  intro k
  induction k with
  | zero => intro i; simp [List.range', pageCheckFrom]
  | succ k ih =>
    intro i
    simpa [List.range', pageCheckFrom] using ih (i + 1)

/-!  Claim theorems, in claim order. -/

/-- Claim C7 (confirmed): for every page with positive length and valid
endpoints, fragmenting with `toPackets` and immediately rebuilding with the
packet-list Page constructor succeeds and returns a page equal to the
original in all four fields. -/
theorem claim_C7_page_roundtrip (pid len : Nat) (srcIP dstIP : IPAddress)
    (E : Nat) (pg : Page) (hlen : 0 < len)
    (hmk : mkPage pid len srcIP dstIP = .ok pg) :
    Page.fromPackets (pg.toPackets E) = .ok pg := by
  have hpg : pg = ⟨pid, len, srcIP, dstIP⟩ := by
    unfold mkPage at hmk
    split at hmk
    · exact absurd hmk (by simp)
    · split at hmk
      · exact absurd hmk (by simp)
      · exact (Except.ok.inj hmk).symm
  subst hpg
  obtain ⟨m, rfl⟩ : ∃ m, len = m + 1 := ⟨len - 1, (Nat.succ_pred_eq_of_pos hlen).symm⟩
  unfold Page.toPackets
  rw [List.range_eq_range']
  have hcons : List.range' 0 (m + 1) = 0 :: List.range' 1 m := by
    simp [List.range']
  rw [hcons]
  unfold Page.fromPackets
  simp only [List.map_cons]
  have hck := pageCheckFrom_range (⟨pid, m + 1, srcIP, dstIP⟩ : Page) E (m + 1) 0
  rw [hcons] at hck
  simp only [List.map_cons] at hck
  simp [hck, List.length_range']

/-- Claim C7 witness: a concrete round trip through `toPackets` and the
packet-list constructor. -/
theorem claim_C7_witness :
    Page.fromPackets
        ((⟨1, 2, ⟨257⟩, ⟨514⟩⟩ : Page).toPackets 100) =
      .ok (⟨1, 2, ⟨257⟩, ⟨514⟩⟩ : Page) :=
  claim_C7_page_roundtrip 1 2 ⟨257⟩ ⟨514⟩ 100 _ (by decide) rfl

theorem filter_isSome_set {p : Packet} :
    ∀ (l : List (Option Packet)) (i : Nat), i < l.length →
      l.getD i none = none →
      ((l.set i (some p)).filter Option.isSome).length =
        (l.filter Option.isSome).length + 1 := by
  intro l
  induction l with
  | nil => intro i h; simp at h
  | cons a tl ih =>
    intro i hi hnone
    cases i with
    | zero =>
      rw [List.getD_cons_zero] at hnone
      subst hnone
      simp [List.filter]
    | succ j =>
      have hj : j < tl.length := Nat.lt_of_succ_lt_succ hi
      have hgd : tl.getD j none = none := by
        rwa [List.getD_cons_succ] at hnone
      have hrec := ih j hj hgd
      cases ha : a.isSome
      · simpa [List.filter, ha] using hrec
      · simpa [List.filter, ha] using hrec

/-- Claim C8 (confirmed): the `addPacket` contract — every reject condition
returns false and leaves the state untouched, the accept path stores the
packet at its slot and increments `count` — together with the resulting
invariant that `count` always equals the number of filled slots, established
by the constructor and preserved by `addPacket` (over well-formed
reassemblers, whose slot array has length `total`). -/
theorem claim_C8_addPacket_contract (ra : PageReassembler) (p : Packet) :
    ((p.pageID ≠ ra.pageID ∨ p.pageLen ≠ ra.total ∨ ra.total ≤ p.pagePos ∨
        (ra.packets.getD p.pagePos none).isSome = true) →
      ra.addPacket p = (false, ra)) ∧
    (p.pageID = ra.pageID → p.pageLen = ra.total → p.pagePos < ra.total →
      ra.packets.getD p.pagePos none = none →
      ra.addPacket p =
        (true, { ra with packets := ra.packets.set p.pagePos (some p),
                         count := ra.count + 1 })) ∧
    (ra.wf → (ra.addPacket p).2.wf) ∧
    (ra.wf → ra.countInv → (ra.addPacket p).2.countInv) ∧
    (∀ pid len exp ra0, PageReassembler.make pid len exp = .ok ra0 →
      ra0.wf ∧ ra0.countInv) := by
  refine ⟨?_, ?_, ?_, ?_, ?_⟩
  · intro h
    unfold PageReassembler.addPacket
    split
    · rfl
    · split
      · rfl
      · split
        · rfl
        · split
          · rfl
          · rename_i hA hB hC hD
            rcases h with h | h | h | h
            · exact absurd h hA
            · exact absurd h hB
            · exact absurd h hC
            · exact absurd h hD
  · intro h1 h2 h3 h4
    unfold PageReassembler.addPacket
    rw [if_neg (by simp [h1]), if_neg (by simp [h2]),
      if_neg (by omega), if_neg (by rw [h4]; simp)]
  · intro hwf
    unfold PageReassembler.addPacket
    split
    · exact hwf
    · split
      · exact hwf
      · split
        · exact hwf
        · split
          · exact hwf
          · simpa [PageReassembler.wf] using hwf
  · intro hwf hinv
    unfold PageReassembler.addPacket
    split
    · exact hinv
    · split
      · exact hinv
      · split
        · exact hinv
        · split
          · exact hinv
          · rename_i h1 h2 h3 h4
            have hlt : p.pagePos < ra.packets.length := by
              rw [PageReassembler.wf] at hwf; omega
            have hn : ra.packets.getD p.pagePos none = none := by
              cases hx : ra.packets.getD p.pagePos none with
              | none => rfl
              | some q => exact absurd (by rw [hx]; rfl) h4
            simp only [PageReassembler.countInv] at hinv ⊢
            rw [filter_isSome_set ra.packets p.pagePos hlt hn, hinv]
  · intro pid len exp ra0 hmk
    unfold PageReassembler.make at hmk
    split at hmk
    · exact absurd hmk (by simp)
    · rename_i hlen
      have : ra0 = ⟨pid, len, 0, exp, List.replicate len none⟩ :=
        (Except.ok.inj hmk).symm
      subst this
      constructor
      · simp [PageReassembler.wf]
      · simp [PageReassembler.countInv, List.filter_replicate]

theorem sendPage_false_effects (s : TermState) (L : Nat) (d : IPAddress)
    (E : Nat) (s2 : TermState) (h : s.sendPage L d E = .ok (s2, false)) :
    s2 = { s with nextPageID := s.nextPageID + 1,
                  pagesCreated := s.pagesCreated + 1,
                  packetsGenerated := s.packetsGenerated + L,
                  pagesOutDropped := s.pagesOutDropped + 1,
                  packetsOutDropped := s.packetsOutDropped + L } := by
  unfold TermState.sendPage at h
  dsimp only [] at h
  split at h
  · exact absurd h (by simp)
  · rename_i page hpage
    have hpg : page = ⟨s.nextPageID, L, s.terminalIP, d⟩ := by
      unfold mkPage at hpage
      split at hpage
      · exact absurd hpage (by simp)
      · split at hpage
        · exact absurd hpage (by simp)
        · exact (Except.ok.inj hpage).symm
    subst hpg
    simp only [Page.toPackets, List.length_map, List.length_range] at h
    split at h
    · exact ((Prod.mk.injEq _ _ _ _).mp (Except.ok.inj h)).1.symm
    · exact absurd ((Prod.mk.injEq _ _ _ _).mp (Except.ok.inj h)).2 (by simp)

theorem sendPage_nextPageID (s : TermState) (L : Nat) (d : IPAddress)
    (E : Nat) (r : TermState × Bool) (h : s.sendPage L d E = .ok r) :
    r.1.nextPageID = s.nextPageID + 1 := by
  unfold TermState.sendPage at h
  dsimp only [] at h
  split at h
  · exact absurd h (by simp)
  · split at h
    · rw [← Except.ok.inj h]
    · rw [← Except.ok.inj h]

/-- Claim C3 (confirmed): when the output buffer lacks space for the whole
page, `sendPage` returns false, increments `pagesOutDropped` by one and both
`packetsOutDropped` and `packetsGenerated` by the page length, and leaves the
output buffer (and input buffer, reassemblers, quarantine) completely
unchanged — no partial enqueueing. -/
theorem claim_C3_sendPage_atomic (s : TermState) (L : Nat)
    (destIP : IPAddress) (E : Nat)
    (hsrc : s.terminalIP.isValid = true) (hdst : destIP.isValid = true)
    (hsp : s.outBuffer.availableSpace < L) :
    s.sendPage L destIP E =
      .ok ({ s with nextPageID := s.nextPageID + 1,
                    pagesCreated := s.pagesCreated + 1,
                    packetsGenerated := s.packetsGenerated + L,
                    pagesOutDropped := s.pagesOutDropped + 1,
                    packetsOutDropped := s.packetsOutDropped + L }, false) := by
  unfold TermState.sendPage mkPage
  dsimp only []
  rw [if_neg (by simp [hdst]), if_neg (by simp [hsrc])]
  simp only [Page.toPackets, List.length_map, List.length_range]
  rw [if_pos hsp]

/-- Claim C3 witness: the terminal with output capacity 2 drops a page of
length 3 atomically. -/
theorem claim_C3_witness :
    sampleTerminal.sendPage 3 ⟨514⟩ 50 = .ok (sampleTerminalDropped, false) :=
  claim_C3_sendPage_atomic sampleTerminal 3 ⟨514⟩ 50 (by decide) (by decide)
    (by decide)

theorem handleCompletedPage_frame (s : TermState) (pid : Nat)
    (s2 : TermState) (h : s.handleCompletedPage pid = .ok s2) :
    s2.pagesCreated = s.pagesCreated ∧ s2.pagesSent = s.pagesSent ∧
    s2.pagesOutDropped = s.pagesOutDropped ∧
    s2.nextPageID = s.nextPageID ∧ s2.quarantine = s.quarantine := by
  unfold TermState.handleCompletedPage at h
  split at h
  · rw [← Except.ok.inj h]; exact ⟨rfl, rfl, rfl, rfl, rfl⟩
  · split at h
    · rw [← Except.ok.inj h]; exact ⟨rfl, rfl, rfl, rfl, rfl⟩
    · split at h
      · exact absurd h (by simp)
      · dsimp only [] at h
        split at h
        · exact absurd h (by simp)
        · rw [← Except.ok.inj h]; exact ⟨rfl, rfl, rfl, rfl, rfl⟩

theorem receivePacket_frame (s : TermState) (p : Packet) :
    (s.receivePacket p).1.pagesCreated = s.pagesCreated ∧
    (s.receivePacket p).1.pagesSent = s.pagesSent ∧
    (s.receivePacket p).1.pagesOutDropped = s.pagesOutDropped ∧
    (s.receivePacket p).1.nextPageID = s.nextPageID ∧
    (s.receivePacket p).1.quarantine = s.quarantine := by
  unfold TermState.receivePacket
  dsimp only []
  split
  · exact ⟨rfl, rfl, rfl, rfl, rfl⟩
  · split
    · exact ⟨rfl, rfl, rfl, rfl, rfl⟩
    · exact ⟨rfl, rfl, rfl, rfl, rfl⟩

theorem processInputLoop_frame (t : Nat) :
    ∀ (n : Nat) (s : TermState) (cnt : Nat) (r : TermState × Nat),
      TermState.processInputLoop t n s cnt = .ok r →
      r.1.pagesCreated = s.pagesCreated ∧ r.1.pagesSent = s.pagesSent ∧
      r.1.pagesOutDropped = s.pagesOutDropped ∧
      r.1.nextPageID = s.nextPageID ∧ r.1.quarantine = s.quarantine := by
  intro n
  induction n with
  | zero =>
    intro s cnt r h
    unfold TermState.processInputLoop at h
    rw [← Except.ok.inj h]
    exact ⟨rfl, rfl, rfl, rfl, rfl⟩
  | succ n ih =>
    intro s cnt r h
    unfold TermState.processInputLoop at h
    dsimp only [] at h
    repeat' split at h
    all_goals
      first
      | (rw [← Except.ok.inj h]; exact ⟨rfl, rfl, rfl, rfl, rfl⟩)
      | (exact absurd h (by simp))
      | (have hx := ih _ _ _ h
         exact hx)
      | (rename_i s3 hhc
         obtain ⟨a1, a2, a3, a4, a5⟩ := handleCompletedPage_frame _ _ _ hhc
         obtain ⟨b1, b2, b3, b4, b5⟩ := ih _ _ _ h
         exact ⟨b1.trans a1, b2.trans a2, b3.trans a3,
                b4.trans a4, b5.trans a5⟩)

theorem tick_pageCounters (s : TermState) (t : Nat) (s2 : TermState)
    (h : s.tick t = .ok s2) :
    s2.pagesCreated = s.pagesCreated ∧ s2.pagesSent = s.pagesSent ∧
    s2.pagesOutDropped = s.pagesOutDropped ∧
    s2.nextPageID = s.nextPageID := by
  unfold TermState.tick TermState.processInputBuffer at h
  dsimp only [] at h
  split at h
  · exact absurd h (by simp)
  · rename_i r hr
    obtain ⟨a1, a2, a3, a4, _⟩ := processInputLoop_frame _ _ _ _ _ hr
    rw [← Except.ok.inj h]
    exact ⟨a1, a2, a3, a4⟩

theorem sendPage_counters (s : TermState) (L : Nat) (d : IPAddress)
    (E : Nat) (r : TermState × Bool) (h : s.sendPage L d E = .ok r) :
    r.1.pagesCreated = s.pagesCreated + 1 ∧
    r.1.nextPageID = s.nextPageID + 1 ∧
    (r.2 = true → r.1.pagesSent = s.pagesSent + 1 ∧
      r.1.pagesOutDropped = s.pagesOutDropped) ∧
    (r.2 = false → r.1.pagesSent = s.pagesSent ∧
      r.1.pagesOutDropped = s.pagesOutDropped + 1) ∧
    r.1.quarantine = s.quarantine := by
  unfold TermState.sendPage at h
  dsimp only [] at h
  split at h
  · exact absurd h (by simp)
  · split at h
    · rw [← Except.ok.inj h]
      exact ⟨rfl, rfl, fun hb => by simp at hb, fun _ => ⟨rfl, rfl⟩, rfl⟩
    · rw [← Except.ok.inj h]
      exact ⟨rfl, rfl, fun _ => ⟨rfl, rfl⟩, fun hb => by simp at hb, rfl⟩

theorem applyOp_pageAccounting (s : TermState) (op : TOp) (s2 : TermState)
    (h : s.applyOp op = .ok s2) :
    (s.pagesCreated = s.pagesSent + s.pagesOutDropped →
      s2.pagesCreated = s2.pagesSent + s2.pagesOutDropped) ∧
    s.nextPageID ≤ s2.nextPageID := by
  cases op with
  | send L d E =>
    simp only [TermState.applyOp] at h
    split at h
    · exact absurd h (by simp)
    · rename_i s1 b heq
      have hc := sendPage_counters _ _ _ _ _ heq
      have a1 : s1.pagesCreated = s.pagesCreated + 1 := hc.1
      have a2 : s1.nextPageID = s.nextPageID + 1 := hc.2.1
      rw [← Except.ok.inj h]
      cases b with
      | true =>
        have a3 : s1.pagesSent = s.pagesSent + 1 := (hc.2.2.1 rfl).1
        have a4 : s1.pagesOutDropped = s.pagesOutDropped := (hc.2.2.1 rfl).2
        exact ⟨fun hb => by omega, by omega⟩
      | false =>
        have a3 : s1.pagesSent = s.pagesSent := (hc.2.2.2.1 rfl).1
        have a4 : s1.pagesOutDropped = s.pagesOutDropped + 1 :=
          (hc.2.2.2.1 rfl).2
        exact ⟨fun hb => by omega, by omega⟩
  | recv p =>
    simp only [TermState.applyOp] at h
    obtain ⟨a1, a2, a3, a4, _⟩ := receivePacket_frame s p
    rw [← Except.ok.inj h]
    exact ⟨fun hb => by omega, by omega⟩
  | tick t =>
    simp only [TermState.applyOp] at h
    obtain ⟨a1, a2, a3, a4⟩ := tick_pageCounters _ _ _ h
    exact ⟨fun hb => by omega, by omega⟩

theorem applyOps_pageAccounting :
    ∀ (l : List TOp) (s s2 : TermState), s.applyOps l = .ok s2 →
      (s.pagesCreated = s.pagesSent + s.pagesOutDropped →
        s2.pagesCreated = s2.pagesSent + s2.pagesOutDropped) ∧
      s.nextPageID ≤ s2.nextPageID := by
  intro l
  induction l with
  | nil =>
    intro s s2 h
    unfold TermState.applyOps at h
    rw [← Except.ok.inj h]
    exact ⟨fun hb => hb, Nat.le_refl _⟩
  | cons op rest ih =>
    intro s s2 h
    unfold TermState.applyOps at h
    split at h
    · exact absurd h (by simp)
    · rename_i s1 hop
      obtain ⟨a1, a2⟩ := applyOp_pageAccounting _ _ _ hop
      obtain ⟨b1, b2⟩ := ih _ _ h
      exact ⟨fun hb => b1 (a1 hb), Nat.le_trans a2 b2⟩

/-- Claim C10 (confirmed): `sendPage` increments `pagesCreated`,
`packetsGenerated` (by the page length) and `nextPageID` even when the page
is dropped and `sendPage` returns false; consequently `pagesCreated` counts
attempted pages and `pagesCreated = pagesSent + pagesOutDropped` holds after
every reachable-state run.  A page built by `sendPage` takes the pre-call
`nextPageID` as its pageID; since every `sendPage` (dropped or not) bumps
`nextPageID` and no operation ever lowers it, a dropped page's pageID is
strictly below the pageID of every later page of the same terminal, hence
never reused. -/
theorem claim_C10_sendPage_accounting :
    (∀ (s : TermState) (L : Nat) (d : IPAddress) (E : Nat) (s2 : TermState),
      s.sendPage L d E = .ok (s2, false) →
      s2.pagesCreated = s.pagesCreated + 1 ∧
      s2.packetsGenerated = s.packetsGenerated + L ∧
      s2.nextPageID = s.nextPageID + 1 ∧
      s2.pagesOutDropped = s.pagesOutDropped + 1) ∧
    (∀ (ip : IPAddress) (c1 c2 c3 c4 : Nat) (l : List TOp) (s2 : TermState),
      (TermState.initial ip c1 c2 c3 c4).applyOps l = .ok s2 →
      s2.pagesCreated = s2.pagesSent + s2.pagesOutDropped) ∧
    (∀ (s : TermState) (l : List TOp) (s2 : TermState),
      s.applyOps l = .ok s2 → s.nextPageID ≤ s2.nextPageID) ∧
    (∀ (s : TermState) (L : Nat) (d : IPAddress) (E : Nat)
        (r : TermState × Bool),
      s.sendPage L d E = .ok r → r.1.nextPageID = s.nextPageID + 1) := by
  refine ⟨?_, ?_, ?_, ?_⟩
  · intro s L d E s2 h
    have heff := sendPage_false_effects s L d E s2 h
    subst heff
    exact ⟨rfl, rfl, rfl, rfl⟩
  · intro ip c1 c2 c3 c4 l s2 h
    exact (applyOps_pageAccounting l _ s2 h).1 rfl
  · intro s l s2 h
    exact (applyOps_pageAccounting l s s2 h).2
  · intro s L d E r h
    exact sendPage_nextPageID s L d E r h

/-- Claim C10 witness: the dropped page at `sampleTerminal` (capacity 2,
page length 3) bumps `pagesCreated`, `packetsGenerated` and `nextPageID`. -/
theorem claim_C10_witness :
    sampleTerminalDropped.pagesCreated = sampleTerminal.pagesCreated + 1 ∧
    sampleTerminalDropped.packetsGenerated =
      sampleTerminal.packetsGenerated + 3 ∧
    sampleTerminalDropped.nextPageID = sampleTerminal.nextPageID + 1 ∧
    sampleTerminalDropped.pagesOutDropped =
      sampleTerminal.pagesOutDropped + 1 :=
  claim_C10_sendPage_accounting.1 sampleTerminal 3 ⟨514⟩ 50
    sampleTerminalDropped (by rfl)

theorem cleanupLoop_quarantines (t : Nat) :
    ∀ (ras : List PageReassembler) (ra : PageReassembler), ra ∈ ras →
      ra.expTick ≤ t →
      (⟨ra.pageID, t + PACKET_TTL⟩ : QuarantinedID) ∈
        (cleanupLoop t ras).2.2.2 := by
  intro ras
  induction ras with
  | nil => intro ra h _; simp at h
  | cons hd tl ih =>
    intro ra hmem hexp
    rcases List.mem_cons.mp hmem with rfl | hmem2
    · unfold cleanupLoop
      rw [if_pos hexp]
      exact List.mem_cons_self _ _
    · unfold cleanupLoop
      split
      · exact List.mem_cons_of_mem _ (ih ra hmem2 hexp)
      · exact ih ra hmem2 hexp

theorem tick_quarantine_insert (s : TermState) (T : Nat) (s1 : TermState)
    (P : Nat)
    (hra : ∃ ra ∈ s.reassemblers, ra.pageID = P ∧ ra.expTick ≤ T)
    (h : s.tick T = .ok s1) :
    (⟨P, T + PACKET_TTL⟩ : QuarantinedID) ∈ s1.quarantine := by
  obtain ⟨ra, hmem, hpid, hexp⟩ := hra
  subst hpid
  unfold TermState.tick at h
  dsimp only [] at h
  split at h
  · exact absurd h (by simp)
  · rename_i r hr
    have hq := (processInputLoop_frame T _ _ _ _ hr).2.2.2.2
    rw [← Except.ok.inj h, hq]
    exact List.mem_append_right _ (cleanupLoop_quarantines T _ ra hmem hexp)

theorem quarantine_mem_applyOp (s : TermState) (op : TOp) (s2 : TermState)
    (P E : Nat) (hmem : (⟨P, E⟩ : QuarantinedID) ∈ s.quarantine)
    (h : s.applyOp op = .ok s2) (ht : ∀ u, op = TOp.tick u → u < E) :
    (⟨P, E⟩ : QuarantinedID) ∈ s2.quarantine := by
  cases op with
  | send L d E2 =>
    simp only [TermState.applyOp] at h
    split at h
    · exact absurd h (by simp)
    · rename_i s1 b heq
      have hq : s1.quarantine = s.quarantine :=
        (sendPage_counters _ _ _ _ _ heq).2.2.2.2
      rw [← Except.ok.inj h, hq]
      exact hmem
  | recv p =>
    simp only [TermState.applyOp] at h
    have hq := (receivePacket_frame s p).2.2.2.2
    rw [← Except.ok.inj h, hq]
    exact hmem
  | tick u =>
    have hu : u < E := ht u rfl
    simp only [TermState.applyOp] at h
    unfold TermState.tick at h
    dsimp only [] at h
    split at h
    · exact absurd h (by simp)
    · rename_i r hr
      have hq := (processInputLoop_frame u _ _ _ _ hr).2.2.2.2
      rw [← Except.ok.inj h, hq]
      exact List.mem_append_left _
        (List.mem_filter.mpr ⟨hmem, by simpa using hu⟩)

theorem quarantine_mem_applyOps :
    ∀ (l : List TOp) (s s2 : TermState) (P E : Nat),
      (⟨P, E⟩ : QuarantinedID) ∈ s.quarantine →
      (∀ u, TOp.tick u ∈ l → u < E) → s.applyOps l = .ok s2 →
      (⟨P, E⟩ : QuarantinedID) ∈ s2.quarantine := by
  intro l
  induction l with
  | nil =>
    intro s s2 P E hmem _ h
    unfold TermState.applyOps at h
    rw [← Except.ok.inj h]
    exact hmem
  | cons op rest ih =>
    intro s s2 P E hmem hticks h
    unfold TermState.applyOps at h
    split at h
    · exact absurd h (by simp)
    · rename_i s1 hop
      have hmem1 := quarantine_mem_applyOp s op s1 P E hmem hop
        (fun u hu => hticks u (hu ▸ List.mem_cons_self _ _))
      exact ih s1 s2 P E hmem1
        (fun u hu => hticks u (List.mem_cons_of_mem _ hu)) h

theorem receivePacket_quarantined (s : TermState) (p : Packet) (E : Nat)
    (hmem : (⟨p.pageID, E⟩ : QuarantinedID) ∈ s.quarantine) :
    s.receivePacket p =
      ({ s with packetsReceived := s.packetsReceived + 1,
                packetsInTimedOut := s.packetsInTimedOut + 1 }, false) := by
  have hq : s.isIDQuarantined p.pageID = true := by
    unfold TermState.isIDQuarantined
    rw [List.any_eq_true]
    exact ⟨⟨p.pageID, E⟩, hmem, by simp⟩
  unfold TermState.receivePacket
  dsimp only []
  split
  · rfl
  · rename_i hneg
    exact absurd hq hneg

/-- Claim C6 (confirmed): once a reassembler for page `P` is removed by the
tick-`T` cleanup sweep (which pushes the quarantine entry
`(P, T + PACKET_TTL)`), every packet of page `P` handed to `receivePacket`
after any further operations whose ticks stay below `T + PACKET_TTL` is
counted in `packetsInTimedOut` and rejected: `receivePacket` returns false
and the state changes only in `packetsReceived` and `packetsInTimedOut` — in
particular the input buffer and the reassembler list are untouched, so the
packet is never enqueued nor shown to any reassembler. -/
theorem claim_C6_quarantine_silence (s : TermState) (P T : Nat)
    (l : List TOp) (p : Packet) (s1 s2 : TermState)
    (hra : ∃ ra ∈ s.reassemblers, ra.pageID = P ∧ ra.expTick ≤ T)
    (htick : s.tick T = .ok s1)
    (hl : ∀ u, TOp.tick u ∈ l → u < T + PACKET_TTL)
    (hops : s1.applyOps l = .ok s2)
    (hp : p.pageID = P) :
    s2.receivePacket p =
      ({ s2 with packetsReceived := s2.packetsReceived + 1,
                 packetsInTimedOut := s2.packetsInTimedOut + 1 }, false) := by
  have h1 := tick_quarantine_insert s T s1 P hra htick
  have h2 := quarantine_mem_applyOps l s1 s2 P (T + PACKET_TTL) h1 hl hops
  exact receivePacket_quarantined s2 p (T + PACKET_TTL) (hp ▸ h2)

/-- Claim C6 witness: the terminal whose page-42 reassembler expires at the
tick-252 sweep rejects a page-42 straggler arriving at tick 300 (inside the
window ending at tick 352). -/
theorem claim_C6_witness :
    quarTerminalAfterTick.receivePacket quarPacket =
      ({ quarTerminalAfterTick with
          packetsReceived := quarTerminalAfterTick.packetsReceived + 1,
          packetsInTimedOut :=
            quarTerminalAfterTick.packetsInTimedOut + 1 }, false) :=
  claim_C6_quarantine_silence quarTerminal 42 252 [TOp.tick 300] quarPacket
    quarTerminalAfterTick quarTerminalAfterTick
    (by decide) (by rfl)
    (by intro u hu; simp at hu; subst hu; decide)
    (by rfl) rfl

/-- Claim C9 (confirmed): the implicit hazard is real — from a freshly
constructed terminal at (1,1), receiving position 0 of page 0 (length 2)
from source (1,2) and position 1 of the same page from source (2,2) is
accepted into the input buffer (reassembler lookup is by pageID only and
`addPacket` never checks endpoints), and the next `processInputBuffer` (and
hence `tick`) completes the mixed reassembler, so the Page constructor
rejects the inconsistent `srcIP` and the `std::invalid_argument` escapes the
pipeline uncaught. -/
theorem claim_C9_mixed_sources_throw :
    (mixTerminal.receivePacket mixPacketA).2 = true ∧
    ((mixTerminal.receivePacket mixPacketA).1.receivePacket mixPacketB).2 =
      true ∧
    mixPacketA.srcIP ≠ mixPacketB.srcIP ∧
    mixPacketA.pageID = mixPacketB.pageID ∧
    mixPacketA.pageLen = mixPacketB.pageLen ∧
    ((mixTerminal.receivePacket mixPacketA).1.receivePacket
        mixPacketB).1.processInputBuffer 1 = .error .invalidArgument ∧
    ((mixTerminal.receivePacket mixPacketA).1.receivePacket
        mixPacketB).1.tick 1 = .error .invalidArgument := by
  refine ⟨rfl, rfl, by decide, rfl, rfl, rfl, rfl⟩

theorem conserved_iff (s : RouterState) :
    s.conserved ↔ s.packetsReceived = s.accounted :=
  Iff.rfl

theorem enqueue_length (b : PacketBuffer) (p : Packet) :
    (b.enqueue p).2.packets.length =
      b.packets.length + (if (b.enqueue p).1 = true then 1 else 0) := by
  unfold PacketBuffer.enqueue
  split <;> simp

theorem enqueue_true (b : PacketBuffer) (p : Packet) (b2 : PacketBuffer)
    (h : b.enqueue p = (true, b2)) : b2.packets = b.packets ++ [p] := by
  unfold PacketBuffer.enqueue at h
  split at h
  · exact absurd ((Prod.mk.injEq _ _ _ _).mp h).1 (by simp)
  · rw [← ((Prod.mk.injEq _ _ _ _).mp h).2]

theorem receivePacket_conserved (s : RouterState) (p : Packet)
    (h : s.conserved) : ((s.receivePacket p).1).conserved := by
  rw [conserved_iff] at h ⊢
  unfold RouterState.receivePacket
  dsimp only []
  split
  · rename_i b heq
    have hb := enqueue_true _ _ _ heq
    unfold RouterState.accounted RouterState.outPending PacketBuffer.size
      at h ⊢
    dsimp only []
    rw [hb]
    simp only [List.length_append, List.length_singleton]
    omega
  · unfold RouterState.accounted RouterState.outPending PacketBuffer.size
      at h ⊢
    dsimp only []
    omega

theorem enqueueToConn_sum (ip : IPAddress) (p : Packet) :
    ∀ (cs cs2 : List RtrConnection) (ok : Bool),
      enqueueToConn cs ip p = some (cs2, ok) →
      (cs2.map (fun c => c.outBuffer.packets.length)).sum =
        (cs.map (fun c => c.outBuffer.packets.length)).sum +
          (if ok = true then 1 else 0) := by
  intro cs
  induction cs with
  | nil => intro cs2 ok h; simp [enqueueToConn] at h
  | cons c rest ih =>
    intro cs2 ok h
    unfold enqueueToConn at h
    split at h
    · dsimp only [] at h
      have h2 := Option.some.inj h
      have hcs : ({ c with outBuffer := (c.outBuffer.enqueue p).2 } :: rest)
          = cs2 := ((Prod.mk.injEq _ _ _ _).mp h2).1
      have hok : (c.outBuffer.enqueue p).1 = ok :=
        ((Prod.mk.injEq _ _ _ _).mp h2).2
      subst hcs
      subst hok
      simp only [List.map_cons, List.sum_cons]
      have hlen := enqueue_length c.outBuffer p
      cases hb : (c.outBuffer.enqueue p).1
      · rw [hb] at hlen; simp at hlen; simp [hlen]
      · rw [hb] at hlen; simp at hlen; simp [hlen]; omega
    · split at h
      · exact absurd h (by simp)
      · rename_i res cs3 ok3 heq
        have h2 := Option.some.inj h
        have hcs : (c :: cs3) = cs2 := ((Prod.mk.injEq _ _ _ _).mp h2).1
        have hok : ok3 = ok := ((Prod.mk.injEq _ _ _ _).mp h2).2
        subst hcs
        subst hok
        have hrec := ih cs3 ok3 heq
        simp only [List.map_cons, List.sum_cons]
        omega

theorem routePacket_step (s : RouterState) (p : Packet) :
    (s.routePacket p).1.packetsReceived = s.packetsReceived ∧
    (s.routePacket p).1.accounted = s.accounted + 1 := by
  unfold RouterState.routePacket
  dsimp only []
  split
  · split
    · rename_i b heq
      have hb := enqueue_true _ _ _ heq
      refine ⟨rfl, ?_⟩
      unfold RouterState.accounted RouterState.outPending PacketBuffer.size
      dsimp only []
      rw [hb]
      simp only [List.length_append, List.length_singleton]
      omega
    · refine ⟨rfl, ?_⟩
      unfold RouterState.accounted RouterState.outPending PacketBuffer.size
      dsimp only []
      omega
  · split
    · refine ⟨rfl, ?_⟩
      unfold RouterState.accounted RouterState.outPending PacketBuffer.size
      dsimp only []
      omega
    · rename_i cs heq
      have hsum := enqueueToConn_sum _ p _ _ _ heq
      refine ⟨rfl, ?_⟩
      unfold RouterState.accounted RouterState.outPending PacketBuffer.size
      dsimp only []
      simp at hsum
      omega
    · rename_i cs heq
      have hsum := enqueueToConn_sum _ p _ _ _ heq
      refine ⟨rfl, ?_⟩
      unfold RouterState.accounted RouterState.outPending PacketBuffer.size
      dsimp only []
      simp at hsum
      omega

theorem processInputLoop_conserved (t : Nat) :
    ∀ (n : Nat) (s : RouterState) (cnt : Nat), s.conserved →
      ((RouterState.processInputLoop t n s cnt).1).conserved := by
  intro n
  induction n with
  | zero => intro s cnt hc; exact hc
  | succ n ih =>
    intro s cnt hc
    unfold RouterState.processInputLoop
    dsimp only []
    split
    · exact hc
    · rename_i p rest heq
      rw [conserved_iff] at hc
      split
      · apply ih
        rw [conserved_iff]
        unfold RouterState.accounted RouterState.outPending PacketBuffer.size
          at hc ⊢
        dsimp only []
        rw [heq] at hc
        simp only [List.length_cons] at hc
        omega
      · apply ih
        rw [conserved_iff]
        have hstep := routePacket_step
          ({ s with inBuffer := { s.inBuffer with packets := rest } }) p
        rw [hstep.1, hstep.2]
        unfold RouterState.accounted RouterState.outPending PacketBuffer.size
          at hc ⊢
        dsimp only []
        rw [heq] at hc
        simp only [List.length_cons] at hc
        omega

theorem processLocalLoop_len (t bw : Nat) (terms : List IPAddress) :
    ∀ (pkts : List Packet) (d : Nat),
      (processLocalLoop t bw terms d pkts).1.length +
        (processLocalLoop t bw terms d pkts).2.1 +
        (processLocalLoop t bw terms d pkts).2.2.1 +
        (processLocalLoop t bw terms d pkts).2.2.2 = pkts.length := by
  intro pkts
  induction pkts with
  | nil => intro d; simp [processLocalLoop]
  | cons p rest ih =>
    intro d
    unfold processLocalLoop
    split
    · dsimp only []; omega
    · split
      · dsimp only []
        have hx := ih d
        simp only [List.length_cons]
        generalize processLocalLoop t bw terms d rest = q at hx ⊢
        rcases q with ⟨r2, dd2, td2, dr2⟩
        simp only [] at hx ⊢
        omega
      · split
        · dsimp only []
          have hx := ih (d + 1)
          simp only [List.length_cons]
          generalize processLocalLoop t bw terms (d + 1) rest = q at hx ⊢
          rcases q with ⟨r2, dd2, td2, dr2⟩
          simp only [] at hx ⊢
          omega
        · dsimp only []
          have hx := ih d
          simp only [List.length_cons]
          generalize processLocalLoop t bw terms d rest = q at hx ⊢
          rcases q with ⟨r2, dd2, td2, dr2⟩
          simp only [] at hx ⊢
          omega

theorem drainConnLoop_len (t bw : Nat) (alive : Bool) :
    ∀ (pkts : List Packet) (sent : Nat),
      (drainConnLoop t bw alive sent pkts).1.length +
        (drainConnLoop t bw alive sent pkts).2.1 +
        (drainConnLoop t bw alive sent pkts).2.2.1 +
        (drainConnLoop t bw alive sent pkts).2.2.2 = pkts.length := by
  intro pkts
  induction pkts with
  | nil => intro sent; simp [drainConnLoop]
  | cons p rest ih =>
    intro sent
    unfold drainConnLoop
    split
    · dsimp only []; omega
    · split
      · dsimp only []
        have hx := ih sent
        simp only [List.length_cons]
        generalize drainConnLoop t bw alive sent rest = q at hx ⊢
        rcases q with ⟨r2, dd2, td2, dr2⟩
        simp only [] at hx ⊢
        omega
      · split
        · dsimp only []
          have hx := ih (sent + 1)
          simp only [List.length_cons]
          generalize drainConnLoop t bw alive (sent + 1) rest = q at hx ⊢
          rcases q with ⟨r2, dd2, td2, dr2⟩
          simp only [] at hx ⊢
          omega
        · dsimp only []
          have hx := ih sent
          simp only [List.length_cons]
          generalize drainConnLoop t bw alive sent rest = q at hx ⊢
          rcases q with ⟨r2, dd2, td2, dr2⟩
          simp only [] at hx ⊢
          omega

theorem processOutputConns_sum (t bw : Nat) :
    ∀ (cs : List RtrConnection),
      ((processOutputConns t bw cs).1.map
          (fun c => c.outBuffer.packets.length)).sum +
        (processOutputConns t bw cs).2.1 +
        (processOutputConns t bw cs).2.2.1 +
        (processOutputConns t bw cs).2.2.2 =
      (cs.map (fun c => c.outBuffer.packets.length)).sum := by
  intro cs
  induction cs with
  | nil => simp [processOutputConns]
  | cons c rest ih =>
    unfold processOutputConns
    dsimp only []
    simp only [List.map_cons, List.sum_cons]
    have h1 := drainConnLoop_len t bw c.alive c.outBuffer.packets 0
    generalize drainConnLoop t bw c.alive 0 c.outBuffer.packets = q1
      at h1 ⊢
    generalize processOutputConns t bw rest = q2 at ih ⊢
    rcases q1 with ⟨r1, a1, b1, c1⟩
    rcases q2 with ⟨r2, a2, b2, c2⟩
    simp only [] at h1 ih ⊢
    omega

theorem processLocalBuffer_conserved (s : RouterState) (t : Nat)
    (h : s.conserved) : ((s.processLocalBuffer t).1).conserved := by
  rw [conserved_iff] at h ⊢
  unfold RouterState.processLocalBuffer
  dsimp only []
  unfold RouterState.accounted RouterState.outPending PacketBuffer.size
    at h ⊢
  dsimp only []
  have hlen := processLocalLoop_len t s.locBufferBW s.terminalIPs
    s.locBuffer.packets 0
  generalize processLocalLoop t s.locBufferBW s.terminalIPs 0
      s.locBuffer.packets = q at hlen ⊢
  rcases q with ⟨r, dd, td, dr⟩
  simp only [] at hlen ⊢
  omega

theorem processOutputBuffers_conserved (s : RouterState) (t : Nat)
    (h : s.conserved) : ((s.processOutputBuffers t).1).conserved := by
  rw [conserved_iff] at h ⊢
  unfold RouterState.processOutputBuffers
  dsimp only []
  unfold RouterState.accounted RouterState.outPending PacketBuffer.size
    at h ⊢
  dsimp only []
  have hsum := processOutputConns_sum t s.outBufferBW s.connections
  generalize processOutputConns t s.outBufferBW s.connections = q
    at hsum ⊢
  rcases q with ⟨cs2, a1, b1, c1⟩
  simp only [] at hsum ⊢
  omega

theorem recvFold_conserved :
    ∀ (l : List Packet) (s : RouterState), s.conserved →
      (l.foldl (fun s p => (s.receivePacket p).1) s).conserved := by
  intro l
  induction l with
  | nil => intro s h; exact h
  | cons p rest ih =>
    intro s h
    exact ih _ (receivePacket_conserved s p h)

theorem tick_conserved (s : RouterState) (t : Nat) (emitted : List Packet)
    (h : s.conserved) : (s.tick t emitted).conserved := by
  unfold RouterState.tick
  dsimp only []
  exact processInputLoop_conserved t _ _ _
    (recvFold_conserved emitted _
      (processLocalBuffer_conserved _ t
        (processOutputBuffers_conserved s t h)))

theorem initial_conserved (ip : IPAddress)
    (c1 c2 c3 c4 c5 c6 : Nat) (nbrs : List (IPAddress × Bool))
    (terms : List IPAddress) (rt : RoutingTable) :
    (RouterState.initial ip c1 c2 c3 c4 c5 c6 nbrs terms rt).conserved := by
  rw [conserved_iff]
  unfold RouterState.initial RouterState.accounted RouterState.outPending
    PacketBuffer.size
  dsimp only []
  induction nbrs with
  | nil => simp
  | cons n rest ih => simpa using ih

/-- Claim C1 (confirmed): packet conservation at a router.  Starting from
construction — all counters zero, all buffers empty, any set of neighbor
connections, terminals and routing table — after any sequence of
`receivePacket` and `tick` operations (each tick carrying the packets its
terminals emit through the parent's `receivePacket`), `packetsReceived`
equals `packetsDropped + packetsTimedOut + packetsForwarded +
packetsDelivered + inBuffer.size + locBuffer.size +` the sum of all neighbor
output-buffer sizes. -/
theorem claim_C1_router_conservation (ip : IPAddress)
    (c1 c2 c3 c4 c5 c6 : Nat) (nbrs : List (IPAddress × Bool))
    (terms : List IPAddress) (rt : RoutingTable) (l : List ROp) :
    ((RouterState.initial ip c1 c2 c3 c4 c5 c6 nbrs terms rt).applyOps
      l).conserved := by
  have hinit := initial_conserved ip c1 c2 c3 c4 c5 c6 nbrs terms rt
  unfold RouterState.applyOps
  generalize RouterState.initial ip c1 c2 c3 c4 c5 c6 nbrs terms rt = s
    at hinit ⊢
  induction l generalizing s with
  | nil => exact hinit
  | cons op rest ih =>
    simp only [List.foldl_cons]
    apply ih
    cases op with
    | recv p => exact receivePacket_conserved s p hinit
    | tick t emitted => exact tick_conserved s t emitted hinit

/-- Claim C2 (code bug): evaluation at the failing input.  At router (1,0) —
which every Network-built topology connects to router 0, whose IP is the
all-zero address — a packet whose destination router has no routing-table
entry is NOT dropped: `getNextHopIP` returns the invalid sentinel (0,0),
`getOutputBuffer((0,0))` finds the connection to router 0, and the packet is
enqueued there; `routePacket` returns true and `packetsDropped` stays 0,
contradicting the spec's route-miss-counts-as-a-drop rule and the intent of
the `ProcessInputBuffer_NoRoute` test. -/
theorem claim_C2_route_miss_bug :
    missRouter.routingTable.getNextHopIP missPacket.dstIP =
      IPAddress.invalid ∧
    missPacket.dstIP.getRouterIP ≠ missRouter.routerIP.getRouterIP ∧
    (missRouter.routePacket missPacket).2 = true ∧
    (missRouter.routePacket missPacket).1.packetsDropped = 0 ∧
    connSizes ((missRouter.routePacket missPacket).1.connections) = [1] := by
  refine ⟨rfl, by decide, rfl, rfl, rfl⟩

/-- Claim C4 counterexample: with `outBW = 1` and a connection buffer holding
an expired packet followed by a fresh one, a single
`processOutputBuffers(10)` call dequeues BOTH packets (the buffer goes from
size 2 to size 0), exceeding the claimed per-connection bound of `outBW`
dequeues: expired packets do not count against the bandwidth quota. -/
theorem claim_C4_counterexample :
    overdrainRouter.outBufferBW = 1 ∧
    connSizes overdrainRouter.connections = [2] ∧
    connSizes ((overdrainRouter.processOutputBuffers 10).1.connections) =
      [0] ∧
    ¬ (2 - 0 ≤ 1) := by
  refine ⟨rfl, rfl, rfl, by decide⟩

theorem drainConnLoop_sent_le (t bw : Nat) (alive : Bool) :
    ∀ (buf : List Packet) (sent : Nat),
      (drainConnLoop t bw alive sent buf).2.1 ≤ bw - sent := by
  intro buf
  induction buf with
  | nil => intro sent; simp [drainConnLoop]
  | cons p rest ih =>
    intro sent
    unfold drainConnLoop
    split
    · dsimp only []; omega
    · rename_i hlt
      split
      · dsimp only []
        have hx := ih sent
        generalize drainConnLoop t bw alive sent rest = q at hx ⊢
        rcases q with ⟨r2, dd2, td2, dr2⟩
        simp only [] at hx ⊢
        omega
      · split
        · dsimp only []
          have hx := ih (sent + 1)
          generalize drainConnLoop t bw alive (sent + 1) rest = q at hx ⊢
          rcases q with ⟨r2, dd2, td2, dr2⟩
          simp only [] at hx ⊢
          omega
        · dsimp only []
          have hx := ih sent
          generalize drainConnLoop t bw alive sent rest = q at hx ⊢
          rcases q with ⟨r2, dd2, td2, dr2⟩
          simp only [] at hx ⊢
          omega

theorem processOutputConns_total (t bw : Nat) :
    ∀ (cs : List RtrConnection),
      (processOutputConns t bw cs).2.1 ≤ bw * cs.length := by
  intro cs
  induction cs with
  | nil => simp [processOutputConns]
  | cons c rest ih =>
    unfold processOutputConns
    dsimp only []
    have h1 := drainConnLoop_sent_le t bw c.alive c.outBuffer.packets 0
    generalize drainConnLoop t bw c.alive 0 c.outBuffer.packets = q1
      at h1 ⊢
    generalize processOutputConns t bw rest = q2 at ih ⊢
    rcases q1 with ⟨r1, a1, b1, c1⟩
    rcases q2 with ⟨r2, a2, b2, c2⟩
    simp only [] at h1 ih ⊢
    simp only [List.length_cons, Nat.mul_succ]
    omega

/-- Claim C4 as amended (forced by the counterexample): in a single
`processOutputBuffers(currentTick)` call, at most `outBW` packets are
forwarded (handed to the live neighbor) from each connection — the
per-connection loop's `sent` result never exceeds `outBW`, and the call's
total equals the growth of `packetsForwarded` and is bounded by
`outBW * #connections`.  Dequeued packets that are expired are timed out
without counting toward the quota, so dequeues per connection can exceed
`outBW` (as the counterexample shows). -/
theorem claim_C4_amended_output_bandwidth :
    (∀ (t bw : Nat) (alive : Bool) (buf : List Packet),
      (drainConnLoop t bw alive 0 buf).2.1 ≤ bw) ∧
    (∀ (s : RouterState) (t : Nat),
      (s.processOutputBuffers t).1.packetsForwarded =
        s.packetsForwarded + (s.processOutputBuffers t).2 ∧
      (s.processOutputBuffers t).2 ≤ s.outBufferBW * s.connections.length) := by
  refine ⟨?_, ?_⟩
  · intro t bw alive buf
    have h := drainConnLoop_sent_le t bw alive buf 0
    omega
  · intro s t
    exact ⟨rfl, processOutputConns_total t s.outBufferBW s.connections⟩

theorem getRouterIndex_spec (g : List RouterNode) (ip : IPAddress) (i : Nat)
    (h : getRouterIndex g ip = .ok i) :
    ∃ node, g[i]? = some node ∧ node.ip = ip := by
  unfold getRouterIndex at h
  split at h
  · rename_i j heq
    have h2 := Except.ok.inj h
    subst h2
    obtain ⟨hlt, hfi⟩ := List.findIdx?_eq_some_iff_findIdx_eq.mp heq
    have hp := (List.findIdx_eq (p := fun r => r.ip == ip) hlt).mp hfi
    exact ⟨g[j], List.getElem?_eq_getElem hlt, by simpa using hp.1⟩
  · exact absurd h (by simp)

theorem ip_index_unique (g : List RouterNode)
    (hnodup : (g.map RouterNode.ip).Nodup) {i j : Nat} {ni nj : RouterNode}
    (hi : g[i]? = some ni) (hj : g[j]? = some nj) (heq : ni.ip = nj.ip) :
    i = j := by
  obtain ⟨hil, hie⟩ := List.getElem?_eq_some_iff.mp hi
  obtain ⟨hjl, hje⟩ := List.getElem?_eq_some_iff.mp hj
  have hmi : i < (g.map RouterNode.ip).length := by simpa using hil
  have hmj : j < (g.map RouterNode.ip).length := by simpa using hjl
  have hmap : (g.map RouterNode.ip)[i] = (g.map RouterNode.ip)[j] := by
    simp only [List.getElem_map]
    rw [hie, hje, heq]
  exact hnodup.getElem_inj_iff.mp hmap

theorem findMin_fold_spec (ds : List DistInfo) :
    ∀ (l : List (Nat × DistInfo)) (acc : Option Nat × Option Nat),
      (∀ x ∈ l, ds[x.1]? = some x.2) →
      (∀ u, acc.1 = some u → ∃ du, ds[u]? = some du ∧ du.visited = false ∧
        du.distance ≠ none) →
      ∀ u,
        (l.foldl (fun acc jd =>
          if !jd.2.visited && ltINF jd.2.distance acc.2
          then (some jd.1, jd.2.distance) else acc) acc).1 = some u →
        ∃ du, ds[u]? = some du ∧ du.visited = false ∧ du.distance ≠ none := by
  intro l
  induction l with
  | nil => intro acc hl hacc u h; exact hacc u h
  | cons x rest ih =>
    intro acc hl hacc u h
    simp only [List.foldl_cons] at h
    refine ih _ (fun y hy => hl y (List.mem_cons_of_mem _ hy)) ?_ u h
    intro v hv
    by_cases hc : (!x.2.visited && ltINF x.2.distance acc.2) = true
    · rw [if_pos hc] at hv
      simp only [] at hv
      have hv2 : x.1 = v := Option.some.inj hv

      subst hv2
      simp only [Bool.and_eq_true, Bool.not_eq_true'] at hc
      refine ⟨x.2, hl x (List.mem_cons_self _ _), hc.1, ?_⟩
      intro hdn
      rw [hdn] at hc
      simp [ltINF] at hc
    · rw [if_neg hc] at hv
      exact hacc v hv

theorem findMinDistance_spec (ds : List DistInfo) (u : Nat)
    (h : findMinDistance ds = some u) :
    ∃ du, ds[u]? = some du ∧ du.visited = false ∧ du.distance ≠ none := by
  unfold findMinDistance at h
  exact findMin_fold_spec ds ds.enum (none, none)
    (fun x hx => List.mem_enum_iff_getElem?.mp hx)
    (fun v hv => by simp at hv) u h

theorem nodup_bounded_length_le (vis : List Nat) (n : Nat)
    (hnd : vis.Nodup) (hb : ∀ i ∈ vis, i < n) : vis.length ≤ n := by
  have h1 : vis.toFinset.card = vis.length := List.toFinset_card_of_nodup hnd
  have h2 : vis.toFinset ⊆ Finset.range n := by
    intro x hx
    simp only [List.mem_toFinset] at hx
    simp only [Finset.mem_range]
    exact hb x hx
  have h3 := Finset.card_le_card h2
  rw [h1, Finset.card_range] at h3
  exact h3

theorem setNextHopIP_entries (destIP nextHop : IPAddress) :
    ∀ (rt : RoutingTable) (e : RouteEntry),
      e ∈ rt.setNextHopIP destIP nextHop →
      e ∈ rt ∨ e = ⟨destIP, nextHop⟩ := by
  intro rt
  induction rt with
  | nil =>
    intro e he
    unfold RoutingTable.setNextHopIP at he
    simp at he
    right
    rw [he]
  | cons a rest ih =>
    intro e he
    unfold RoutingTable.setNextHopIP at he
    split at he
    · rename_i hk
      rcases List.mem_cons.mp he with rfl | hmem
      · right
        have : a.destRouterIP = destIP := by simpa using hk
        rw [this]
      · left
        exact List.mem_cons_of_mem _ hmem
    · rcases List.mem_cons.mp he with rfl | hmem
      · left
        exact List.mem_cons_self _ _
      · rcases ih e hmem with hm | hm
        · exact Or.inl (List.mem_cons_of_mem _ hm)
        · exact Or.inr hm

theorem dijkstra_init_inv (g : List RouterNode) (srcIdx : Nat)
    (srcIP : IPAddress) (hlt : srcIdx < g.length) :
    DijkInv g srcIdx srcIP
      ((g.map (fun _ => DistInfo.init)).set srcIdx ⟨some 0, srcIP, false⟩)
      [] := by
  have hmlen : (g.map (fun _ => DistInfo.init)).length = g.length := by simp
  refine ⟨by simp, List.nodup_nil, ?_, ?_, ?_, ?_⟩
  · intro i hi; simp at hi
  · intro i d hd
    constructor
    · intro hv
      exfalso
      rw [List.getElem?_set] at hd
      split at hd
      · split at hd
        · rw [← Option.some.inj hd] at hv
          simp at hv
        · simp at hd
      · rw [List.getElem?_map] at hd
        cases hg : g[i]? with
        | none => rw [hg] at hd; simp at hd
        | some node =>
          rw [hg] at hd
          have hinit : DistInfo.init = d := Option.some.inj hd
          rw [← hinit] at hv
          simp [DistInfo.init] at hv
    · intro hmem; simp at hmem
  · intro d hd
    rw [List.getElem?_set] at hd
    simp only [if_pos rfl] at hd
    rw [if_pos (by omega : srcIdx < (g.map (fun _ => DistInfo.init)).length)]
      at hd
    rw [← Option.some.inj hd]
    exact ⟨rfl, rfl⟩
  · intro i d hd hdn hne
    exfalso
    rw [List.getElem?_set] at hd
    split at hd
    · rename_i h1; exact hne h1.symm
    · rw [List.getElem?_map] at hd
      cases hg : g[i]? with
      | none => rw [hg] at hd; simp at hd
      | some node =>
        rw [hg] at hd
        have hinit : DistInfo.init = d := Option.some.inj hd
        rw [← hinit] at hdn
        simp [DistInfo.init] at hdn

theorem relaxNeighbors_inv (g : List RouterNode) (srcIdx : Nat)
    (srcIP : IPAddress)
    (uIdx : Nat) (unode : RouterNode) (hu : g[uIdx]? = some unode)
    (dU : Nat) :
    ∀ (nbrs : List (IPAddress × Nat)) (ds : List DistInfo) (vis : List Nat),
      (∀ x ∈ nbrs, x ∈ unode.neighbors) →
      DijkInv g srcIdx srcIP ds vis →
      uIdx ∈ vis →
      (∃ du, ds[uIdx]? = some du ∧ du.visited = true ∧
        du.distance ≠ none) →
      ∀ ds2, relaxNeighbors g unode.ip dU nbrs ds = .ok ds2 →
        DijkInv g srcIdx srcIP ds2 vis := by
  intro nbrs
  induction nbrs with
  | nil =>
    intro ds vis _ hinv _ _ ds2 h
    unfold relaxNeighbors at h
    exact (Except.ok.inj h) ▸ hinv
  | cons nb rest ih =>
    intro ds vis hsub hinv humem hufin ds2 h
    unfold relaxNeighbors at h
    split at h
    · exact absurd h (by simp)
    · rename_i j hj
      split at h
      · exact ih ds vis (fun x hx => hsub x (List.mem_cons_of_mem _ hx))
          hinv humem hufin ds2 h
      · rename_i dj hdj
        split at h
        · exact ih ds vis (fun x hx => hsub x (List.mem_cons_of_mem _ hx))
            hinv humem hufin ds2 h
        · rename_i hvisited
          split at h
          · rename_i hltd
            obtain ⟨hlen, hnd, hbound, hvisiff, hsrc, hpar⟩ := hinv
            obtain ⟨nodej, hgj, hipj⟩ := getRouterIndex_spec g nb.1 j hj
            obtain ⟨du, hduq, hduv, hduf⟩ := hufin
            have hjlen : j < ds.length := (List.getElem?_eq_some_iff.mp hdj).1
            have hjvisF : dj.visited = false := by
              cases hb : dj.visited
              · rfl
              · exact absurd hb hvisited
            have hjnm : j ∉ vis :=
              fun hm => hvisited ((hvisiff j dj hdj).mpr hm)
            have hjne : j ≠ srcIdx := by
              intro hjs
              subst hjs
              have := (hsrc dj hdj).2
              rw [this] at hltd
              simp [ltINF] at hltd
            have huj : uIdx ≠ j := by
              intro he
              subst he
              rw [hduq] at hdj
              rw [← Option.some.inj hdj] at hjvisF
              rw [hduv] at hjvisF
              cases hjvisF
            have hinv2 : DijkInv g srcIdx srcIP
                (ds.set j ⟨some (dU + nb.2), unode.ip, false⟩) vis := by
              refine ⟨by simp [hlen], hnd, ?_, ?_, ?_, ?_⟩
              · intro i hi
                have := hbound i hi
                simpa using this
              · intro i d hd
                by_cases hij : i = j
                · subst hij
                  rw [List.getElem?_set, if_pos rfl, if_pos hjlen] at hd
                  rw [← Option.some.inj hd]
                  exact ⟨fun hv => absurd hv (by simp), fun hm => absurd hm hjnm⟩
                · rw [List.getElem?_set_ne (fun he => hij he.symm)] at hd
                  exact hvisiff i d hd
              · intro d hd
                rw [List.getElem?_set_ne hjne] at hd
                exact hsrc d hd
              · intro i d hd hdn hne
                by_cases hij : i = j
                · subst hij
                  rw [List.getElem?_set, if_pos rfl, if_pos hjlen] at hd
                  rw [← Option.some.inj hd]
                  refine ⟨uIdx, du, unode, nodej, ?_, hu, hgj, rfl, hduv,
                    hduf, ⟨nb, hsub nb (List.mem_cons_self _ _),
                      hipj.symm⟩, ?_⟩
                  · rw [List.getElem?_set_ne (Ne.symm huj)]
                    exact hduq
                  · intro hm; exact absurd hm hjnm
                · rw [List.getElem?_set_ne (fun he => hij he.symm)] at hd
                  obtain ⟨k, dk, nodek, nodei, hk, hgk, hgi, hkip, hkv,
                    hkf, hadj, hidx⟩ := hpar i d hd hdn hne
                  have hkj : k ≠ j := by
                    intro he
                    subst he
                    rw [hk] at hdj
                    rw [← Option.some.inj hdj] at hjvisF
                    rw [hkv] at hjvisF
                    cases hjvisF
                  refine ⟨k, dk, nodek, nodei, ?_, hgk, hgi, hkip, hkv,
                    hkf, hadj, hidx⟩
                  rw [List.getElem?_set_ne (fun he => hkj he.symm)]
                  exact hk
            refine ih _ vis (fun x hx => hsub x (List.mem_cons_of_mem _ hx))
              hinv2 humem ?_ ds2 h
            refine ⟨du, ?_, hduv, hduf⟩
            rw [List.getElem?_set_ne (Ne.symm huj)]
            exact hduq
          · exact ih ds vis (fun x hx => hsub x (List.mem_cons_of_mem _ hx))
              hinv humem hufin ds2 h

theorem dijkstra_select_inv (g : List RouterNode) (srcIdx : Nat)
    (srcIP : IPAddress) (ds : List DistInfo) (vis : List Nat)
    (hinv : DijkInv g srcIdx srcIP ds vis)
    (u : Nat) (du : DistInfo) (hdu : ds[u]? = some du)
    (hvF : du.visited = false) (dU : Nat) (hdU : du.distance = some dU) :
    DijkInv g srcIdx srcIP (ds.set u ⟨some dU, du.parent, true⟩)
      (vis ++ [u]) := by
  obtain ⟨hlen, hnd, hbound, hvisiff, hsrc, hpar⟩ := hinv
  have hul : u < ds.length := (List.getElem?_eq_some_iff.mp hdu).1
  have hunm : u ∉ vis := by
    intro hm
    rw [(hvisiff u du hdu).mpr hm] at hvF
    cases hvF
  refine ⟨by simp [hlen], ?_, ?_, ?_, ?_, ?_⟩
  · rw [List.nodup_append]
    exact ⟨hnd, List.nodup_singleton u, by
      intro a ha hb
      simp only [List.mem_singleton] at hb
      subst hb
      exact hunm ha⟩
  · intro i hi
    rcases List.mem_append.mp hi with hm | hm
    · have := hbound i hm
      simpa using this
    · simp only [List.mem_singleton] at hm
      subst hm
      simpa using hul
  · intro i d hd
    by_cases hiu : i = u
    · subst hiu
      rw [List.getElem?_set, if_pos rfl, if_pos hul] at hd
      rw [← Option.some.inj hd]
      constructor
      · intro _
        exact List.mem_append_right vis (List.mem_singleton_self i)
      · intro _
        rfl
    · rw [List.getElem?_set_ne (fun he => hiu he.symm)] at hd
      rw [hvisiff i d hd]
      constructor
      · exact fun hm => List.mem_append_left _ hm
      · intro hm
        rcases List.mem_append.mp hm with hm | hm
        · exact hm
        · simp only [List.mem_singleton] at hm
          exact absurd hm hiu
  · intro d hd
    by_cases hsu : srcIdx = u
    · subst hsu
      rw [List.getElem?_set, if_pos rfl, if_pos hul] at hd
      obtain ⟨hp, hd0⟩ := hsrc du hdu
      rw [hd0] at hdU
      rw [← Option.some.inj hd]
      exact ⟨hp, by rw [← Option.some.inj hdU]⟩
    · rw [List.getElem?_set_ne (fun he => hsu he.symm)] at hd
      exact hsrc d hd
  · intro i d hd hdn hne
    by_cases hiu : i = u
    · subst hiu
      rw [List.getElem?_set, if_pos rfl, if_pos hul] at hd
      rw [← Option.some.inj hd] at hdn ⊢
      obtain ⟨k, dk, nodek, nodei, hk, hgk, hgi, hkip, hkv, hkf, hadj,
        _⟩ := hpar i du hdu (by rw [hdU]; simp) hne
      have hkmem : k ∈ vis := (hvisiff k dk hk).mp hkv
      have hku : k ≠ i := by
        intro he
        subst he
        exact hunm hkmem
      refine ⟨k, dk, nodek, nodei, ?_, hgk, hgi, hkip, hkv, hkf, hadj, ?_⟩
      · rw [List.getElem?_set_ne (Ne.symm hku)]
        exact hk
      · intro _
        rw [List.indexOf_append_of_mem hkmem,
          List.indexOf_append_of_not_mem hunm]
        have h1 : List.indexOf k vis < vis.length :=
          List.indexOf_lt_length.mpr hkmem
        omega
    · rw [List.getElem?_set_ne (fun he => hiu he.symm)] at hd
      obtain ⟨k, dk, nodek, nodei, hk, hgk, hgi, hkip, hkv, hkf, hadj,
        hidx⟩ := hpar i d hd hdn hne
      have hkmem : k ∈ vis := (hvisiff k dk hk).mp hkv
      have hku : k ≠ u := by
        intro he
        subst he
        exact hunm hkmem
      refine ⟨k, dk, nodek, nodei, ?_, hgk, hgi, hkip, hkv, hkf, hadj, ?_⟩
      · rw [List.getElem?_set_ne (Ne.symm hku)]
        exact hk
      · intro hm
        rcases List.mem_append.mp hm with hm | hm
        · rw [List.indexOf_append_of_mem hkmem,
            List.indexOf_append_of_mem hm]
          exact hidx hm
        · simp only [List.mem_singleton] at hm
          exact absurd hm hiu

theorem dijkstraLoop_inv (g : List RouterNode) (srcIdx : Nat)
    (srcIP : IPAddress) :
    ∀ (k : Nat) (ds : List DistInfo) (vis : List Nat),
      DijkInv g srcIdx srcIP ds vis →
      ∀ ds2, dijkstraLoop g k ds = .ok ds2 →
        ∃ vis2, DijkInv g srcIdx srcIP ds2 vis2 := by
  intro k
  induction k with
  | zero =>
    intro ds vis hinv ds2 h
    unfold dijkstraLoop at h
    exact ⟨vis, (Except.ok.inj h) ▸ hinv⟩
  | succ n ih =>
    intro ds vis hinv ds2 h
    unfold dijkstraLoop at h
    split at h
    · exact ⟨vis, (Except.ok.inj h) ▸ hinv⟩
    · rename_i u hmin
      obtain ⟨du', hdu', hvF', hfin'⟩ := findMinDistance_spec ds u hmin
      split at h
      · rename_i hnone
        rw [hnone] at hdu'
        cases hdu'
      · rename_i du hdu
        rw [hdu] at hdu'
        have hdueq : du = du' := Option.some.inj hdu'
        subst hdueq
        split at h
        · rename_i hdnone
          exact absurd hdnone hfin'
        · rename_i dU hdU
          dsimp only [] at h
          have hsel := dijkstra_select_inv g srcIdx srcIP ds vis hinv u du
            hdu hvF' dU hdU
          split at h
          · exact ⟨vis ++ [u], (Except.ok.inj h) ▸ hsel⟩
          · rename_i node hgu
            split at h
            · exact absurd h (by simp)
            · rename_i ds3 hrelax
              have hul : u < ds.length :=
                (List.getElem?_eq_some_iff.mp hdu).1
              have hipu : node.ip = node.ip := rfl
              have hfin2 : ∃ duu,
                  (ds.set u ⟨some dU, du.parent, true⟩)[u]? = some duu ∧
                  duu.visited = true ∧ duu.distance ≠ none := by
                refine ⟨⟨some dU, du.parent, true⟩, ?_, rfl, by simp⟩
                rw [List.getElem?_set, if_pos rfl, if_pos hul]
              have hinv3 := relaxNeighbors_inv g srcIdx srcIP u node hgu dU
                node.neighbors (ds.set u ⟨some dU, du.parent, true⟩)
                (vis ++ [u]) (fun x hx => hx) hsel
                (List.mem_append_right vis (List.mem_singleton_self u))
                hfin2 ds3 hrelax
              exact ih ds3 (vis ++ [u]) hinv3 ds2 h

theorem nodup_bounded_full_mem (vis : List Nat) (n : Nat)
    (hnd : vis.Nodup) (hb : ∀ j ∈ vis, j < n) (hlen : vis.length = n)
    (i : Nat) (hi : i < n) : i ∈ vis := by
  have h1 : vis.toFinset.card = vis.length := List.toFinset_card_of_nodup hnd
  have h2 : vis.toFinset ⊆ Finset.range n := by
    intro x hx
    simp only [List.mem_toFinset] at hx
    simp only [Finset.mem_range]
    exact hb x hx
  have h3 : vis.toFinset = Finset.range n := by
    apply Finset.eq_of_subset_of_card_le h2
    rw [h1, hlen, Finset.card_range]
  have h4 : i ∈ vis.toFinset := by
    rw [h3]
    simpa using hi
  simpa using h4

theorem traceBack_spec (g : List RouterNode) (srcIdx : Nat)
    (srcIP : IPAddress) (ds : List DistInfo) (vis : List Nat)
    (hnodup : (g.map RouterNode.ip).Nodup)
    (hinv : DijkInv g srcIdx srcIP ds vis)
    (srcNode : RouterNode) (hsrcg : g[srcIdx]? = some srcNode)
    (hsrcip : srcNode.ip = srcIP) (dstIP : IPAddress) :
    ∀ (fuel i : Nat) (di : DistInfo) (nodei : RouterNode),
      ds[i]? = some di → g[i]? = some nodei →
      di.distance ≠ none → i ≠ srcIdx →
      reach g nodei.ip dstIP →
      (i ∈ vis → List.indexOf i vis + 2 ≤ fuel) →
      (i ∉ vis → vis.length + 2 ≤ fuel) →
      ∀ nh, traceBack g ds srcIP fuel nodei.ip di.parent = .ok nh →
        adjP g srcIP nh ∧ reach g nh dstIP := by
  obtain ⟨hlen, hnd, hbound, hvisiff, hsrc, hpar⟩ := hinv
  intro fuel
  induction fuel with
  | zero =>
    intro i di nodei _ _ _ _ _ _ _ nh h
    unfold traceBack at h
    exact absurd h (by simp)
  | succ fuel ih =>
    intro i di nodei hdi hgi hfin hne hreach hfA hfB nh h
    obtain ⟨k, dk, nodek, nodei', hk, hgk, hgi', hkip, hkv, hkf, hadj,
      hidx⟩ := hpar i di hdi hfin hne
    have hnieq : nodei = nodei' := by
      rw [hgi] at hgi'
      exact Option.some.inj hgi'
    subst hnieq
    have hkmem : k ∈ vis := (hvisiff k dk hk).mp hkv
    unfold traceBack at h
    split at h
    · rename_i hpeq
      have hps : di.parent = srcIP := by simpa using hpeq
      have hnheq : nh = nodei.ip := (Except.ok.inj h).symm
      subst hnheq
      refine ⟨?_, hreach⟩
      refine ⟨nodek, ?_, ?_, ?_⟩
      · exact List.getElem?_mem hgk
      · rw [hkip, hps]
      · exact hadj
    · rename_i hpne
      have hpns : di.parent ≠ srcIP := by simpa using hpne
      split at h
      · rename_i e hge
        exfalso
        unfold getRouterIndex at hge
        split at hge
        · exact absurd hge (by simp)
        · rename_i hfnone
          have hall := List.findIdx?_eq_none_iff.mp hfnone
          have hkm : nodek ∈ g := List.getElem?_mem hgk
          have := hall nodek hkm
          rw [hkip] at this
          simp at this
      · rename_i pIdx hgp
        obtain ⟨pnode, hgpn, hpnip⟩ := getRouterIndex_spec g di.parent
          pIdx hgp
        have hpk : pIdx = k := by
          apply ip_index_unique g hnodup hgpn hgk
          rw [hpnip, hkip]
        subst hpk
        split at h
        · rename_i hnone
          rw [hnone] at hk
          cases hk
        · rename_i dp hdp
          rw [hdp] at hk
          have hdpk : dp = dk := Option.some.inj hk
          subst hdpk
          have hkns : pIdx ≠ srcIdx := by
            intro he
            subst he
            rw [hgk] at hsrcg
            have hns : nodek = srcNode := Option.some.inj hsrcg
            rw [hns, hsrcip] at hkip
            exact hpns hkip.symm
          have hreach2 : reach g nodek.ip dstIP := by
            refine Relation.ReflTransGen.head ?_ hreach
            exact ⟨nodek, List.getElem?_mem hgk, rfl, hadj⟩
          have hfA2 : pIdx ∈ vis → List.indexOf pIdx vis + 2 ≤ fuel := by
            intro _
            by_cases hm : i ∈ vis
            · have h1 := hidx hm
              have h2 := hfA hm
              omega
            · have h1 : List.indexOf pIdx vis < vis.length :=
                List.indexOf_lt_length.mpr hkmem
              have h2 := hfB hm
              omega
          have hfB2 : pIdx ∉ vis → vis.length + 2 ≤ fuel :=
            fun hm => absurd hkmem hm
          have hstep : traceBack g ds srcIP fuel nodek.ip dp.parent
              = .ok nh := by
            rw [hkip]
            exact h
          exact ih pIdx dp nodek hdp hgk hkf hkns hreach2 hfA2 hfB2 nh hstep

theorem buildTable_spec (g : List RouterNode) (srcIdx : Nat)
    (srcIP : IPAddress) (ds : List DistInfo) (vis : List Nat)
    (hnodup : (g.map RouterNode.ip).Nodup)
    (hinv : DijkInv g srcIdx srcIP ds vis)
    (srcNode : RouterNode) (hsrcg : g[srcIdx]? = some srcNode)
    (hsrcip : srcNode.ip = srcIP) :
    ∀ (items : List (Nat × RouterNode)) (rt : RoutingTable),
      (∀ x ∈ items, g[x.1]? = some x.2) →
      (∀ e ∈ rt, adjP g srcIP e.nextHopIP ∧
        reach g e.nextHopIP e.destRouterIP) →
      ∀ rt2, buildTable g ds srcIdx srcIP items rt = .ok rt2 →
        ∀ e ∈ rt2, adjP g srcIP e.nextHopIP ∧
          reach g e.nextHopIP e.destRouterIP := by
  intro items
  induction items with
  | nil =>
    intro rt _ hrt rt2 h
    unfold buildTable at h
    exact (Except.ok.inj h) ▸ hrt
  | cons x rest ih =>
    obtain ⟨i, node⟩ := x
    intro rt hitems hrt rt2 h
    unfold buildTable at h
    have hrest : ∀ y ∈ rest, g[y.1]? = some y.2 :=
      fun y hy => hitems y (List.mem_cons_of_mem _ hy)
    split at h
    · exact ih rt hrest hrt rt2 h
    · rename_i hneq
      have hne : i ≠ srcIdx := by simpa using hneq
      split at h
      · exact ih rt hrest hrt rt2 h
      · rename_i di hdi
        split at h
        · exact ih rt hrest hrt rt2 h
        · rename_i dv hdv
          split at h
          · exact absurd h (by simp)
          · rename_i nh htb
            refine ih _ hrest ?_ rt2 h
            intro e he
            rcases setNextHopIP_entries node.ip nh rt e he with hm | hm
            · exact hrt e hm
            · subst hm
              have hil : i < ds.length :=
                (List.getElem?_eq_some_iff.mp hdi).1
              have hvlen : vis.length ≤ ds.length :=
                nodup_bounded_length_le vis ds.length hinv.2.1 hinv.2.2.1
              have hglen : ds.length = g.length := hinv.1
              have hfin : di.distance ≠ none := by rw [hdv]; simp
              have hfA : i ∈ vis →
                  List.indexOf i vis + 2 ≤ g.length + 1 := by
                intro hm
                have h1 : List.indexOf i vis < vis.length :=
                  List.indexOf_lt_length.mpr hm
                omega
              have hfB : i ∉ vis → vis.length + 2 ≤ g.length + 1 := by
                intro hm
                by_cases hveq : vis.length = ds.length
                · exact absurd (nodup_bounded_full_mem vis ds.length
                    hinv.2.1 hinv.2.2.1 hveq i hil) hm
                · omega
              exact traceBack_spec g srcIdx srcIP ds vis hnodup hinv
                srcNode hsrcg hsrcip node.ip (g.length + 1) i di node hdi
                (hitems (i, node) (List.mem_cons_self _ _)) hfin hne
                Relation.ReflTransGen.refl hfA hfB nh htb

/-- Claim C8 witness: a concrete accept followed by a duplicate reject, with
the count invariant holding throughout. -/
theorem claim_C8_witness :
    ((⟨7, 2, 0, 50, [none, none]⟩ : PageReassembler).addPacket
        ⟨7, 1, 2, ⟨257⟩, ⟨514⟩, 90⟩ =
      (true, ⟨7, 2, 1, 50, [none, some ⟨7, 1, 2, ⟨257⟩, ⟨514⟩, 90⟩]⟩)) ∧
    ((⟨7, 2, 1, 50, [none, some ⟨7, 1, 2, ⟨257⟩, ⟨514⟩, 90⟩]⟩ :
        PageReassembler).addPacket ⟨7, 1, 2, ⟨257⟩, ⟨514⟩, 90⟩ =
      (false, ⟨7, 2, 1, 50, [none, some ⟨7, 1, 2, ⟨257⟩, ⟨514⟩, 90⟩]⟩)) := by
  constructor
  · exact (claim_C8_addPacket_contract ⟨7, 2, 0, 50, [none, none]⟩
      ⟨7, 1, 2, ⟨257⟩, ⟨514⟩, 90⟩).2.1 rfl rfl (by decide) (by decide)
  · exact (claim_C8_addPacket_contract
      ⟨7, 2, 1, 50, [none, some ⟨7, 1, 2, ⟨257⟩, ⟨514⟩, 90⟩]⟩
      ⟨7, 1, 2, ⟨257⟩, ⟨514⟩, 90⟩).1 (Or.inr (Or.inr (Or.inr (by decide))))

/-- Claim C5 counterexample: on the zero-weight five-router diamond graph,
`computeRoutingTable` run at router 1 (IP (1,0)) records router 2 (IP (2,0))
as the next hop toward router 5 (IP (5,0)); router 2 lies on no minimum-hop
path from router 1 to router 5, since the hop distances are
d(1,2) = 1 and d(2,5) = 2 while d(1,5) = 2, so the claimed path-optimality
of the computed table fails under the actual buffer-load edge weights. -/
theorem claim_C5_counterexample :
    zeroWeights diamondGraph ∧
    (computeRoutingTable diamondGraph ⟨256⟩).map
      (fun rt => rt.getNextHopIP ⟨1280⟩) = .ok ⟨512⟩ ∧
    hopDist diamondGraph ⟨256⟩ ⟨512⟩ = some 1 ∧
    hopDist diamondGraph ⟨512⟩ ⟨1280⟩ = some 2 ∧
    hopDist diamondGraph ⟨256⟩ ⟨1280⟩ = some 2 ∧
    ¬ liesOnMinHopPath diamondGraph ⟨256⟩ ⟨1280⟩ ⟨512⟩ := by
  refine ⟨by unfold zeroWeights; decide, by rfl, by decide, by decide, by decide, ?_⟩
  rintro ⟨a, b, c, ha, hb, hc, habc⟩
  have h1 : hopDist diamondGraph ⟨256⟩ ⟨512⟩ = some 1 := by decide
  have h2 : hopDist diamondGraph ⟨512⟩ ⟨1280⟩ = some 2 := by decide
  have h3 : hopDist diamondGraph ⟨256⟩ ⟨1280⟩ = some 2 := by decide
  rw [h1] at ha
  rw [h2] at hb
  rw [h3] at hc
  have e1 : 1 = a := Option.some.inj ha
  have e2 : 2 = b := Option.some.inj hb
  have e3 : 2 = c := Option.some.inj hc
  omega

/-- Claim C5, amended: every entry of a routing table successfully computed
by `computeRoutingTable` (on a graph whose router IPs are distinct) names as
next hop a direct neighbor of the source router from which the entry's
destination router is reachable along the neighbor relation.  The original
claim's stronger reading — that the next hop lies on a path minimizing the
total hop count when all edge weights are zero — is refuted by
the counterexample above: Dijkstra's zero-weight tie-breaking may pick a
parent on a longer-hop path. -/
theorem claim_C5_amended (g : List RouterNode) (srcIP : IPAddress)
    (rt : RoutingTable) (hnodup : (g.map RouterNode.ip).Nodup)
    (hcomp : computeRoutingTable g srcIP = .ok rt) :
    ∀ e ∈ rt, adjP g srcIP e.nextHopIP ∧
      reach g e.nextHopIP e.destRouterIP := by
  unfold computeRoutingTable at hcomp
  split at hcomp
  · exact absurd hcomp (by simp)
  · rename_i srcIdx hsrc
    obtain ⟨srcNode, hsrcg, hsrcip⟩ :=
      getRouterIndex_spec g srcIP srcIdx hsrc
    dsimp only [] at hcomp
    split at hcomp
    · exact absurd hcomp (by simp)
    · rename_i ds2 hloop
      have hsl : srcIdx < g.length := (List.getElem?_eq_some_iff.mp hsrcg).1
      obtain ⟨vis2, hinv2⟩ := dijkstraLoop_inv g srcIdx srcIP g.length
        ((g.map (fun _ => DistInfo.init)).set srcIdx ⟨some 0, srcIP, false⟩)
        [] (dijkstra_init_inv g srcIdx srcIP hsl) ds2 hloop
      exact buildTable_spec g srcIdx srcIP ds2 vis2 hnodup hinv2 srcNode
        hsrcg hsrcip g.enum [] (fun x hx => List.mem_enum_iff_getElem?.mp hx)
        (fun e he => absurd he (List.not_mem_nil e)) rt hcomp

/-- Claim C5 witness: on the diamond graph, the amended theorem applied to
the concretely computed table yields that router 2 is a neighbor of router 1
and that router 5 is reachable from router 2. -/
theorem claim_C5_witness :
    adjP diamondGraph ⟨256⟩ ⟨512⟩ ∧ reach diamondGraph ⟨512⟩ ⟨1280⟩ := by
  exact claim_C5_amended diamondGraph ⟨256⟩ diamondTable (by decide) rfl
    ⟨⟨1280⟩, ⟨512⟩⟩ (by decide)

end RouterSim
